import Mathlib

/-!
Verification of the Insomnia-collection importer
(`src/packages/bruno-app/src/components/RawFilePickerEditor/index.js`,
second unit of the excerpt: `importCollection` and its helpers).

The JavaScript source is shallowly embedded below.  Strings are modelled as
`List Char` at the core (with `String` wrappers at the interface), JavaScript
objects of known shape become structures with `Option` fields for possibly
absent properties, and the parsed JSON/YAML document is a tree of `JVal`
values.  Unbounded recursions of the source (`createFolderStructure`,
`createEnvironments`, which follow `parentId` links and do not terminate on
cyclic inputs) take an explicit fuel argument; the out-of-fuel result is a
distinguished value and never identified with any JavaScript behaviour.
Fresh-id generation (`uuid()`) is modelled as a constant string since no
observable property under test depends on the generated identifiers.
-/

/-! ## Character classes used by the rewriter's regular expressions -/

/-- JavaScript's `\s` character class (as used by `regexToRemove`). -/
def jsWhitespace (c : Char) : Bool :=
  c = ' ' || c = '\t' || c = '\n' || c = '\r' ||
  c.toNat = 0x0b || c.toNat = 0x0c || c.toNat = 0xa0 || c.toNat = 0x1680 ||
  (0x2000 ≤ c.toNat && c.toNat ≤ 0x200a) || c.toNat = 0x2028 || c.toNat = 0x2029 ||
  c.toNat = 0x202f || c.toNat = 0x205f || c.toNat = 0x3000 || c.toNat = 0xfeff

/-- A character matched by `[\s\]]` in `regexToRemove`. -/
def wsOrRBracket (c : Char) : Bool :=
  jsWhitespace c || c = ']'

/-- JavaScript line terminators, which `.` does not match (no `s` flag). -/
def isLineTerm (c : Char) : Bool :=
  c = '\n' || c = '\r' || c.toNat = 0x2028 || c.toNat = 0x2029

/-! ## `regexToRemove` / `regexToUnderscore` replacement passes

`regexToRemove = /(?:_\.|[\s\]]+)/g` replaced by the empty string is a
left-to-right scan that deletes an `_.` pair, or any whitespace-or-`]`
character; `regexToUnderscore = /[.\[]/g` replaced by `_` rewrites the
remaining `.` and `[` characters. -/

/-- Global replacement of `regexToRemove` by `''` on the span text. -/
def removeStep : List Char → List Char
  | [] => []
  | [c] => if wsOrRBracket c then [] else [c]
  | c :: d :: rest =>
    if c = '_' ∧ d = '.' then removeStep rest
    else if wsOrRBracket c then removeStep (d :: rest)
    else c :: removeStep (d :: rest)

/-- Global replacement of `regexToUnderscore` by `'_'` on the span text. -/
def underscoreStep (l : List Char) : List Char :=
  l.map (fun c => if c = '.' ∨ c = '[' then '_' else c)

/-- The per-match rewrite
`variable.replaceAll(regexToRemove, '').replaceAll(regexToUnderscore, '_')`. -/
def transformVariable (v : List Char) : List Char :=
  underscoreStep (removeStep v)

/-! ## The non-greedy `{{.*?}}` matcher (`regexVariable`, global flag) -/

/-- Lazy search for the first `}}` after the opening braces: returns the span
interior (matched by `.*?`, so it may not contain a line terminator) and the
remaining input, or `none` when the attempt fails at this start position. -/
def findClose : List Char → Option (List Char × List Char)
  | [] => none
  | [_] => none
  | c :: d :: rest =>
    if c = '}' ∧ d = '}' then some ([], rest)
    else if isLineTerm c then none
    else (findClose (d :: rest)).map (fun p => (c :: p.1, p.2))

/-- Prepend a character to the first gap of a span decomposition (or to the
trailing text when there is no span). -/
def consGap (c : Char) : List (List Char × List Char) × List Char →
    List (List Char × List Char) × List Char
  | ([], tail) => ([], c :: tail)
  | ((g, m) :: ps, tail) => ((c :: g, m) :: ps, tail)

/-- Global scan of `/{{.*?}}/g` (with structural fuel; every step consumes
at least one character, so the wrapper's `length + 1` fuel never runs out):
decomposes the input into (gap, match) pairs followed by the trailing text,
exactly in the order the JavaScript regex engine finds the matches (retry at
the next character on a failed attempt, continue after the match end on
success). -/
def scanSpansF : Nat → List Char → List (List Char × List Char) × List Char
  | 0, s => ([], s)
  | _ + 1, [] => ([], [])
  | fuel + 1, c :: rest =>
    if c = '{' ∧ rest.head? = some '{' then
      match findClose rest.tail with
      | some (core, rem) =>
        let p := scanSpansF fuel rem
        (([], '{' :: '{' :: core ++ ['}', '}']) :: p.1, p.2)
      | none => consGap '{' (scanSpansF fuel rest)
    else consGap c (scanSpansF fuel rest)

/-- The span decomposition of the whole input. -/
def scanSpans (s : List Char) : List (List Char × List Char) × List Char :=
  scanSpansF (s.length + 1) s

/-- `consGap` folded over a character prefix. -/
def consGapAll (xs : List Char)
    (p : List (List Char × List Char) × List Char) :
    List (List Char × List Char) × List Char :=
  xs.foldr consGap p

/-- The list of matched spans, i.e. `value.match(regexVariable) || []`. -/
def matchVariables (s : List Char) : List (List Char) :=
  (scanSpans s).1.map Prod.snd

/-! ## `String.prototype.replaceAll(searchString, replaceString)`

A faithful model including the `$`-substitution patterns of the replacement
string (`$$`, `$&`, `` $` ``, `$'`; with a string search there are no capture
groups, so `$n` and `$<` stay literal). -/

/-- ECMAScript `GetSubstitution` for a string search (no captures):
`matched` is the matched substring, `before`/`after` the receiver's text
before/after the match. -/
def getSubstitution (matched before after : List Char) : List Char → List Char
  | [] => []
  | c :: rest =>
    if c = '$' then
      match rest with
      | [] => ['$']
      | d :: rest' =>
        if d = '$' then '$' :: getSubstitution matched before after rest'
        else if d = '&' then matched ++ getSubstitution matched before after rest'
        else if d = Char.ofNat 96 then before ++ getSubstitution matched before after rest'
        else if d = Char.ofNat 39 then after ++ getSubstitution matched before after rest'
        else '$' :: d :: getSubstitution matched before after rest'
    else c :: getSubstitution matched before after rest

/-- Scan of the receiver for non-overlapping occurrences of a nonempty
`pat`, left to right; `before` is the already-scanned prefix of the
receiver.  Structural fuel: every step consumes at least one character, so
the wrapper's `length + 1` fuel never runs out (the fuel-out base case
returns the remaining input unchanged). -/
def replaceAllFromF (pat repl : List Char) : Nat → List Char → List Char → List Char
  | 0, _, s => s
  | fuel + 1, before, s =>
    match s with
    | [] => []
    | c :: rest =>
      if pat ≠ [] ∧ pat.isPrefixOf (c :: rest) then
        getSubstitution pat before (List.drop pat.length (c :: rest)) repl ++
          replaceAllFromF pat repl fuel (before ++ pat) (List.drop pat.length (c :: rest))
      else c :: replaceAllFromF pat repl fuel (before ++ [c]) rest

/-- `receiver.replaceAll(pat, repl)` for an empty search string: a match at
every position, including the end. -/
def replaceAllEmptyPat (repl before s : List Char) : List Char :=
  match s with
  | [] => getSubstitution [] before [] repl
  | c :: rest =>
    getSubstitution [] before (c :: rest) repl ++ c ::
      replaceAllEmptyPat repl (before ++ [c]) rest

/-- `s.replaceAll(pat, repl)` with string arguments. -/
def jsReplaceAll (s pat repl : List Char) : List Char :=
  if pat = [] then replaceAllEmptyPat repl [] s
  else replaceAllFromF pat repl (s.length + 1) [] s

/-! ## `normalizeVariables` -/

/-- The body of `normalizeVariables` on the character list: collect the
matches of `regexVariable` once, then for each match (in order) replace all
its occurrences in the evolving value by its rewritten form. -/
def normalizeList (s : List Char) : List Char :=
  (matchVariables s).foldl
    (fun value v => jsReplaceAll value v (transformVariable v)) s

/-- `normalizeVariables` on a present string value. -/
def normalizeVariables (value : String) : String :=
  String.mk (normalizeList value.data)

/-- `normalizeVariables` including the `value = value || ''` guard: an absent
(`null`/`undefined`) input is replaced by the empty string. -/
def normalizeVariablesOpt (value : Option String) : String :=
  normalizeVariables (value.getD "")

/-- The §4.6 contract stated independently of the implementation: each
matched `\x7b\x7b ... \x7d\x7d` span is rewritten in place by the strip/underscore
passes and all text outside the matched spans is left untouched.  (Second
definition for the refinement comparison; it follows the spec's words.) -/
def specNormalizeList (s : List Char) : List Char :=
  let p := scanSpans s
  (p.1.map (fun gm => gm.1 ++ transformVariable gm.2)).flatten ++ p.2

/-- String version of the spec-side rewriter. -/
def specNormalizeVariables (value : String) : String :=
  String.mk (specNormalizeList value.data)

/-! ## JavaScript values of the parsed document

JSON values as produced by `JSON.parse` (and as found in the already-parsed
export document).  Numbers are kept as their literal token: no observable
property under test depends on numeric normalization. -/

mutual

inductive JVal where
  | null
  | bool (b : Bool)
  | num (raw : String)
  | str (s : String)
  | arr (elems : JElems)
  | obj (fields : JFields)

/-- The element list of a JSON array (a mutual inductive so that all
recursions over values are structural). -/
inductive JElems where
  | nil
  | cons (v : JVal) (rest : JElems)

/-- The member list of a JSON object. -/
inductive JFields where
  | nil
  | cons (k : String) (v : JVal) (rest : JFields)

end

/-- Build an array element list from a `List`. -/
def JElems.ofList : List JVal → JElems
  | [] => .nil
  | v :: rest => .cons v (JElems.ofList rest)

/-- Build an object member list from a `List`. -/
def JFields.ofList : List (String × JVal) → JFields
  | [] => .nil
  | (k, v) :: rest => .cons k v (JFields.ofList rest)

/-! ## `JSON.parse` -/

/-- JSON insignificant whitespace. -/
def skipJsonWs (s : List Char) : List Char :=
  s.dropWhile (fun c => c = ' ' || c = '\t' || c = '\n' || c = '\r')

/-- Value of a hexadecimal digit. -/
def hexDigitVal (c : Char) : Option Nat :=
  if c.isDigit then some (c.toNat - '0'.toNat)
  else if 'a' ≤ c ∧ c ≤ 'f' then some (c.toNat - 'a'.toNat + 10)
  else if 'A' ≤ c ∧ c ≤ 'F' then some (c.toNat - 'A'.toNat + 10)
  else none

/-- String body after the opening quote: content and remaining input. -/
def parseStringBody : List Char → Option (List Char × List Char)
  | [] => none
  | '"' :: rest => some ([], rest)
  | '\\' :: '"' :: rest => (parseStringBody rest).map (fun p => ('"' :: p.1, p.2))
  | '\\' :: '\\' :: rest => (parseStringBody rest).map (fun p => ('\\' :: p.1, p.2))
  | '\\' :: '/' :: rest => (parseStringBody rest).map (fun p => ('/' :: p.1, p.2))
  | '\\' :: 'b' :: rest => (parseStringBody rest).map (fun p => (Char.ofNat 8 :: p.1, p.2))
  | '\\' :: 'f' :: rest => (parseStringBody rest).map (fun p => (Char.ofNat 12 :: p.1, p.2))
  | '\\' :: 'n' :: rest => (parseStringBody rest).map (fun p => ('\n' :: p.1, p.2))
  | '\\' :: 'r' :: rest => (parseStringBody rest).map (fun p => ('\r' :: p.1, p.2))
  | '\\' :: 't' :: rest => (parseStringBody rest).map (fun p => ('\t' :: p.1, p.2))
  | '\\' :: 'u' :: h1 :: h2 :: h3 :: h4 :: rest =>
    match hexDigitVal h1, hexDigitVal h2, hexDigitVal h3, hexDigitVal h4 with
    | some a, some b, some c, some d =>
      (parseStringBody rest).map
        (fun p => (Char.ofNat (a * 4096 + b * 256 + c * 16 + d) :: p.1, p.2))
    | _, _, _, _ => none
  | '\\' :: _ :: _ => none
  | ['\\'] => none
  | c :: rest =>
    if c.toNat < 0x20 then none
    else (parseStringBody rest).map (fun p => (c :: p.1, p.2))

/-- Longest digit run and what follows it. -/
def digitsSpan (s : List Char) : List Char × List Char :=
  (s.takeWhile Char.isDigit, s.dropWhile Char.isDigit)

/-- JSON integer part: `0` or a nonzero digit followed by digits. -/
def parseIntPart : List Char → Option (List Char × List Char)
  | '0' :: rest => some (['0'], rest)
  | c :: rest =>
    if c.isDigit then
      let p := digitsSpan rest
      some (c :: p.1, p.2)
    else none
  | [] => none

/-- Optional JSON fraction part (`none` is a syntax error, `some ([], s)`
an absent fraction). -/
def parseFracPart : List Char → Option (List Char × List Char)
  | '.' :: rest =>
    let p := digitsSpan rest
    if p.1.isEmpty then none else some ('.' :: p.1, p.2)
  | s => some ([], s)

/-- Optional JSON exponent part. -/
def parseExpPart : List Char → Option (List Char × List Char)
  | c :: rest =>
    if c = 'e' ∨ c = 'E' then
      match rest with
      | s :: rest' =>
        if s = '+' ∨ s = '-' then
          let p := digitsSpan rest'
          if p.1.isEmpty then none else some (c :: s :: p.1, p.2)
        else
          let p := digitsSpan rest
          if p.1.isEmpty then none else some (c :: p.1, p.2)
      | [] => none
    else some ([], c :: rest)
  | [] => some ([], [])

/-- A JSON number token (`-?(0|[1-9][0-9]*)(\.[0-9]+)?([eE][+-]?[0-9]+)?`). -/
def parseNumberToken (s : List Char) : Option (List Char × List Char) := do
  let (sign, s1) := match s with
    | '-' :: rest => (['-'], rest)
    | _ => ([], s)
  let (ip, s2) ← parseIntPart s1
  let (fp, s3) ← parseFracPart s2
  let (ep, s4) ← parseExpPart s3
  pure (sign ++ ip ++ fp ++ ep, s4)

/-- Insert a parsed object member; a duplicate key overwrites in place. -/
def insertField : List (String × JVal) → String → JVal → List (String × JVal)
  | [], k, v => [(k, v)]
  | (k', v') :: rest, k, v =>
    if k' = k then (k, v) :: rest else (k', v') :: insertField rest k v

mutual

/-- One JSON value (after optional leading whitespace) and the rest. -/
def parseJsonValue : Nat → List Char → Option (JVal × List Char)
  | 0, _ => none
  | fuel + 1, s =>
    match skipJsonWs s with
    | 'n' :: 'u' :: 'l' :: 'l' :: rest => some (.null, rest)
    | 't' :: 'r' :: 'u' :: 'e' :: rest => some (.bool true, rest)
    | 'f' :: 'a' :: 'l' :: 's' :: 'e' :: rest => some (.bool false, rest)
    | '"' :: rest => (parseStringBody rest).map (fun p => (.str (String.mk p.1), p.2))
    | '[' :: rest => parseJsonArrayTail fuel rest
    | '{' :: rest => parseJsonObjectTail fuel rest
    | s' => (parseNumberToken s').map (fun p => (.num (String.mk p.1), p.2))

/-- Array contents after `[`. -/
def parseJsonArrayTail : Nat → List Char → Option (JVal × List Char)
  | 0, _ => none
  | fuel + 1, s =>
    match skipJsonWs s with
    | ']' :: rest => some (.arr .nil, rest)
    | s' => parseJsonElems fuel [] s'

/-- Comma-separated array elements (accumulator reversed). -/
def parseJsonElems : Nat → List JVal → List Char → Option (JVal × List Char)
  | 0, _, _ => none
  | fuel + 1, acc, s =>
    match parseJsonValue fuel s with
    | none => none
    | some (v, rest) =>
      match skipJsonWs rest with
      | ',' :: rest' => parseJsonElems fuel (v :: acc) rest'
      | ']' :: rest' => some (.arr (JElems.ofList (v :: acc).reverse), rest')
      | _ => none

/-- Object contents after `{`. -/
def parseJsonObjectTail : Nat → List Char → Option (JVal × List Char)
  | 0, _ => none
  | fuel + 1, s =>
    match skipJsonWs s with
    | '}' :: rest => some (.obj .nil, rest)
    | s' => parseJsonMembers fuel [] s'

/-- Comma-separated `"key": value` members. -/
def parseJsonMembers : Nat → List (String × JVal) → List Char → Option (JVal × List Char)
  | 0, _, _ => none
  | fuel + 1, acc, s =>
    match skipJsonWs s with
    | '"' :: rest =>
      match parseStringBody rest with
      | none => none
      | some (key, rest1) =>
        match skipJsonWs rest1 with
        | ':' :: rest2 =>
          match parseJsonValue fuel rest2 with
          | none => none
          | some (v, rest3) =>
            match skipJsonWs rest3 with
            | ',' :: rest4 => parseJsonMembers fuel (insertField acc (String.mk key) v) rest4
            | '}' :: rest4 => some (.obj (JFields.ofList (insertField acc (String.mk key) v)), rest4)
            | _ => none
        | _ => none
    | _ => none

end

/-- `JSON.parse(text)`: `none` models a thrown `SyntaxError`.  The fuel is
ample for any input of this length. -/
def jsonParse (text : String) : Option JVal :=
  match parseJsonValue (4 * text.length + 4) text.data with
  | none => none
  | some (v, rest) => if (skipJsonWs rest).isEmpty then some v else none

/-! ## `JSON.stringify(v, null, 2)` -/

/-- JSON string escaping (quote, backslash, control characters). -/
def quoteJsonChar (c : Char) : List Char :=
  if c = '"' then ['\\', '"']
  else if c = '\\' then ['\\', '\\']
  else if c = '\n' then ['\\', 'n']
  else if c = '\r' then ['\\', 'r']
  else if c = '\t' then ['\\', 't']
  else if c.toNat = 8 then ['\\', 'b']
  else if c.toNat = 12 then ['\\', 'f']
  else if c.toNat < 0x20 then
    ['\\', 'u', '0', '0',
     (Nat.digitChar (c.toNat / 16)), (Nat.digitChar (c.toNat % 16))]
  else [c]

/-- A JSON string literal for `s`. -/
def quoteJson (s : String) : String :=
  String.mk ('"' :: (s.data.map quoteJsonChar).flatten ++ ['"'])

/-- `n` spaces of indentation. -/
def indentSpaces (n : Nat) : String :=
  String.mk (List.replicate n ' ')

mutual

/-- `JSON.stringify` with indent width 2, at indentation level `ind`. -/
def stringifyVal : Nat → JVal → String
  | _, .null => "null"
  | _, .bool b => cond b "true" "false"
  | _, .num r => r
  | _, .str s => quoteJson s
  | _, .arr .nil => "[]"
  | ind, .arr (.cons e es) =>
    "[\n" ++ stringifyElems (ind + 2) (.cons e es) ++ "\n" ++ indentSpaces ind ++ "]"
  | _, .obj .nil => "\x7b\x7d"
  | ind, .obj (.cons k v fs) =>
    "\x7b\n" ++ stringifyFields (ind + 2) (.cons k v fs) ++ "\n" ++ indentSpaces ind ++ "\x7d"

/-- Indented, comma-and-newline separated array elements. -/
def stringifyElems : Nat → JElems → String
  | _, .nil => ""
  | ind, .cons e .nil => indentSpaces ind ++ stringifyVal ind e
  | ind, .cons e (.cons e' es) =>
    indentSpaces ind ++ stringifyVal ind e ++ ",\n" ++ stringifyElems ind (.cons e' es)

/-- Indented, comma-and-newline separated object members. -/
def stringifyFields : Nat → JFields → String
  | _, .nil => ""
  | ind, .cons k v .nil => indentSpaces ind ++ quoteJson k ++ ": " ++ stringifyVal ind v
  | ind, .cons k v (.cons k' v' fs) =>
    indentSpaces ind ++ quoteJson k ++ ": " ++ stringifyVal ind v ++ ",\n" ++
      stringifyFields ind (.cons k' v' fs)

end

/-- Property access `v[k]` on a JavaScript value: a field of an object,
`undefined` (`none`) otherwise.  (Access on `null` throws; callers handle
that case before using this.) -/
def lookupField : JFields → String → Option JVal
  | .nil, _ => none
  | .cons k v rest, key => if k = key then some v else lookupField rest key

/-- Property read dispatching on the value kind. -/
def jsGet (v : JVal) (k : String) : Option JVal :=
  match v with
  | .obj fields => lookupField fields k
  | _ => none

/-! ## `parseGraphQL` -/

/-- The target GraphQL payload `{ query, variables }`; `none` models an
`undefined` property. -/
structure GraphQlPayload where
  query : Option JVal
  «variables» : Option String

/-- `parseGraphQL(text)`: parse the body text as JSON and extract
`query`/`variables` (the latter re-serialized with indent 2); any throw —
a JSON syntax error, or the property access on a parsed `null` — is caught
and degrades to empty query and variables. -/
def parseGraphQL (text : String) : GraphQlPayload :=
  match jsonParse text with
  | none => { query := some (.str ""), «variables» := some "" }
  | some .null => { query := some (.str ""), «variables» := some "" }
  | some graphql =>
    { query := jsGet graphql "query",
      «variables» := (jsGet graphql "variables").map (stringifyVal 0) }

/-! ## `environment.data || {}`, `flatten` (package `flat`) and `.toString()` -/

/-- The JavaScript `x || {}` guard on the environment data: an absent or
falsy value becomes the empty object. -/
def jsOrEmptyObj : Option JVal → JVal
  | none => .obj .nil
  | some .null => .obj .nil
  | some (.bool false) => .obj .nil
  | some (.str "") => .obj .nil
  | some (.num r) => if r = "0" ∨ r = "-0" then .obj .nil else .num r
  | some v => v

/-- Key-path join with the `'_'` delimiter. -/
def joinKey (pre : Option String) (k : String) : String :=
  match pre with
  | none => k
  | some p => p ++ "_" ++ k

mutual

/-- `flat.flatten` at one value: recurse into nonempty objects and arrays,
emit everything else (including empty objects/arrays) as a leaf. -/
def flattenVal : String → JVal → List (String × JVal)
  | key, .obj .nil => [(key, .obj .nil)]
  | key, .obj (.cons k v fs) => flattenFields (some key) (.cons k v fs)
  | key, .arr .nil => [(key, .arr .nil)]
  | key, .arr (.cons e es) => flattenElems (some key) 0 (.cons e es)
  | key, v => [(key, v)]

/-- `flat.flatten` over the members of an object. -/
def flattenFields : Option String → JFields → List (String × JVal)
  | _, .nil => []
  | pre, .cons k v fs => flattenVal (joinKey pre k) v ++ flattenFields pre fs

/-- `flat.flatten` over the elements of an array (index-named keys). -/
def flattenElems : Option String → Nat → JElems → List (String × JVal)
  | _, _, .nil => []
  | pre, i, .cons e es => flattenVal (joinKey pre (toString i)) e ++ flattenElems pre (i + 1) es

end

/-- `flatten(target, { delimiter: '_' })` as the ordered entry list of the
output object (`Object.keys(target)` enumeration; a top-level string
enumerates its character indices). -/
def flattenTop : JVal → List (String × JVal)
  | .obj fs => flattenFields none fs
  | .arr es => flattenElems none 0 es
  | .str s => s.data.enum.map (fun p => (toString p.1, .str (String.mk [p.2])))
  | _ => []

mutual

/-- JavaScript string conversion of a (non-`null`) value: primitives print
themselves, objects print `[object Object]`, arrays join their elements with
commas (with `null` elements joining as the empty string). -/
def jsDisplay : JVal → String
  | .null => ""
  | .bool b => cond b "true" "false"
  | .num r => r
  | .str s => s
  | .obj _ => "[object Object]"
  | .arr es => jsDisplayElems es

/-- `Array.prototype.join(',')` over the element displays. -/
def jsDisplayElems : JElems → String
  | .nil => ""
  | .cons e .nil => jsDisplay e
  | .cons e (.cons e' es) => jsDisplay e ++ "," ++ jsDisplayElems (.cons e' es)

end

/-- `value.toString()`: throws (`none`) on `null` (and `undefined`, which
does not occur among parsed values), converts every other value. -/
def jsToString : JVal → Option String
  | .null => none
  | v => some (jsDisplay v)

/-! ## Source and target data model -/

/-- A source key/value record (headers, query/path/body parameters). -/
structure SrcKV where
  name : Option String := none
  value : Option String := none
  description : Option String := none
  disabled : Option Bool := none
deriving DecidableEq

/-- The source `authentication` object. -/
structure SrcAuth where
  type : Option String := none
  username : Option String := none
  password : Option String := none
  token : Option String := none
deriving DecidableEq

/-- The source `body` object. -/
structure SrcBody where
  mimeType : Option String := none
  text : Option String := none
  params : List SrcKV := []
deriving DecidableEq

/-- One resource of the export's flat resource list.  The source objects are
heterogeneous; absent properties are `none`/`[]`. -/
structure Resource where
  _id : String := ""
  parentId : Option String := none
  _type : String := ""
  name : String := ""
  url : Option String := none
  method : Option String := none
  headers : List SrcKV := []
  parameters : List SrcKV := []
  pathParameters : List SrcKV := []
  authentication : Option SrcAuth := none
  body : Option SrcBody := none
  data : Option JVal := none

/-- The parsed export document (`get(insomniaExport, 'resources', [])`). -/
structure InsomniaExport where
  resources : List Resource

/-- Fresh-id generation `uuid()`; no property under test depends on the
generated values, so it is modelled as a constant. -/
def uuid : String := "uid"

/-- Target header record. -/
structure BrunoHeader where
  uid : String
  name : Option String
  value : String
  description : Option String
  enabled : Bool
deriving DecidableEq

/-- Target query/path parameter record. -/
structure BrunoParam where
  uid : String
  name : Option String
  value : Option String
  description : Option String
  type : String
  enabled : Bool
deriving DecidableEq

/-- Target form-url-encoded body record. -/
structure BrunoFormParam where
  uid : String
  name : Option String
  value : String
  description : Option String
  enabled : Bool
deriving DecidableEq

/-- Target multipart body record (with its `text` part kind). -/
structure BrunoMultipartParam where
  uid : String
  type : String
  name : Option String
  value : String
  description : Option String
  enabled : Bool
deriving DecidableEq

/-- Target body block, as initialized and then updated by the transformer. -/
structure BrunoBody where
  mode : String
  json : Option String
  text : Option String
  xml : Option String
  formUrlEncoded : List BrunoFormParam
  multipartForm : List BrunoMultipartParam
  graphql : Option GraphQlPayload

/-- Target basic-auth payload. -/
structure BasicAuth where
  username : String
  password : String
deriving DecidableEq

/-- Target bearer-auth payload. -/
structure BearerAuth where
  token : String
deriving DecidableEq

/-- Target auth block; `digest` is initialized `null` and never set. -/
structure BrunoAuth where
  mode : String
  basic : Option BasicAuth
  bearer : Option BearerAuth
  digest : Option Unit
deriving DecidableEq

/-- Target request payload. -/
structure BrunoRequest where
  url : String
  method : Option String
  auth : BrunoAuth
  headers : List BrunoHeader
  params : List BrunoParam
  body : BrunoBody

/-- Target request item (`type` is `http-request` or `graphql-request`). -/
structure BrunoRequestItem where
  uid : String
  name : String
  type : String
  request : BrunoRequest

/-- A node of the target collection tree. -/
inductive BrunoNode where
  | folder (uid name : String) (items : List BrunoNode)
  | item (req : BrunoRequestItem)

/-- Target environment variable record. -/
structure BrunoVariable where
  uid : String
  name : String
  value : String
  enabled : Bool
  secret : Bool
  type : String
deriving DecidableEq

/-- Target environment. -/
structure BrunoEnvironment where
  uid : String
  name : String
  «variables» : List BrunoVariable
deriving DecidableEq

/-- Target collection document. -/
structure BrunoCollection where
  name : String
  uid : String
  version : String
  items : List BrunoNode
  environments : List BrunoEnvironment

/-- The labelled error object (`BrunoError`). -/
structure BrunoError where
  message : String
deriving DecidableEq

/-! ## `addSuffixToDuplicateName` -/

/-- The reduction over `allItems`: count the items with the same name at a
strictly smaller index (`k` is the index of the list's head). -/
def dedupCountFrom (nm : String) (index k : Nat) : List Resource → Nat
  | [] => 0
  | r :: rest =>
    (if r.name = nm ∧ k < index then 1 else 0) + dedupCountFrom nm index (k + 1) rest

/-- `addSuffixToDuplicateName(item, index, allItems)`. -/
def addSuffixToDuplicateName (item : Resource) (index : Nat)
    (allItems : List Resource) : String :=
  let nameSuffix := dedupCountFrom item.name index 0 allItems
  if nameSuffix ≠ 0 then item.name ++ "_" ++ toString nameSuffix else item.name

/-! ## `transformInsomniaRequestItem` -/

/-- The body block as initialized before the MIME dispatch. -/
def initBrunoBody : BrunoBody :=
  { mode := "none", json := none, text := none, xml := none,
    formUrlEncoded := [], multipartForm := [], graphql := none }

/-- `mimeTypeString.split(';')[0]`. -/
def splitSemiFirst (s : String) : String :=
  String.mk (s.data.takeWhile (fun c => c ≠ ';'))

/-- `transformInsomniaRequestItem(request, index, allRequests)`: map one
source request to one target request item. -/
def transformInsomniaRequestItem (request : Resource) (index : Nat)
    (allRequests : List Resource) : BrunoRequestItem :=
  let name := addSuffixToDuplicateName request index allRequests
  let headers : List BrunoHeader := request.headers.map (fun h =>
    { uid := uuid, name := h.name, value := normalizeVariablesOpt h.value,
      description := h.description, enabled := !(h.disabled.getD false) })
  let queryParams : List BrunoParam := request.parameters.map (fun p =>
    { uid := uuid, name := p.name, value := some (normalizeVariablesOpt p.value),
      description := p.description, type := "query", enabled := !(p.disabled.getD false) })
  let pathParams : List BrunoParam := request.pathParameters.map (fun p =>
    { uid := uuid, name := p.name, value := p.value, description := some "",
      type := "path", enabled := true })
  let authType := (request.authentication.bind SrcAuth.type).getD ""
  let auth : BrunoAuth :=
    if authType = "basic" then
      { mode := "basic",
        basic := some
          { username := normalizeVariables ((request.authentication.bind SrcAuth.username).getD ""),
            password := normalizeVariables ((request.authentication.bind SrcAuth.password).getD "") },
        bearer := none, digest := none }
    else if authType = "bearer" then
      { mode := "bearer", basic := none,
        bearer := some
          { token := normalizeVariables ((request.authentication.bind SrcAuth.token).getD "") },
        digest := none }
    else { mode := "none", basic := none, bearer := none, digest := none }
  let mimeType := splitSemiFirst ((request.body.bind SrcBody.mimeType).getD "")
  let bodyText := request.body.bind SrcBody.text
  let bodyParams := (request.body.map SrcBody.params).getD []
  let typeAndBody : String × BrunoBody :=
    if mimeType = "application/json" then
      ("http-request",
       { initBrunoBody with mode := "json", json := some (normalizeVariablesOpt bodyText) })
    else if mimeType = "application/x-www-form-urlencoded" then
      ("http-request",
       { initBrunoBody with
         mode := "formUrlEncoded",
         formUrlEncoded := bodyParams.map (fun p =>
           { uid := uuid, name := p.name, value := normalizeVariablesOpt p.value,
             description := p.description, enabled := !(p.disabled.getD false) }) })
    else if mimeType = "multipart/form-data" then
      ("http-request",
       { initBrunoBody with
         mode := "multipartForm",
         multipartForm := bodyParams.map (fun p =>
           { uid := uuid, type := "text", name := p.name,
             value := normalizeVariablesOpt p.value,
             description := p.description, enabled := !(p.disabled.getD false) }) })
    else if mimeType = "text/plain" then
      ("http-request",
       { initBrunoBody with mode := "text", text := some (normalizeVariablesOpt bodyText) })
    else if mimeType = "text/xml" ∨ mimeType = "application/xml" then
      ("http-request",
       { initBrunoBody with mode := "xml", xml := some (normalizeVariablesOpt bodyText) })
    else if mimeType = "application/graphql" then
      ("graphql-request",
       { initBrunoBody with
         mode := "graphql",
         graphql := some (parseGraphQL (normalizeVariablesOpt bodyText)) })
    else ("http-request", initBrunoBody)
  { uid := uuid, name := name, type := typeAndBody.1,
    request := { url := normalizeVariablesOpt request.url, method := request.method,
                 auth := auth, headers := headers, params := queryParams ++ pathParams,
                 body := typeAndBody.2 } }

/-! ## `createFolderStructure`

The source recursion follows `parentId` references through the unchanged
resource list and does not terminate on cyclic inputs; the model's fuel
exhaustion (`none`) is a modelling artifact distinct from every JavaScript
outcome. -/

mutual

/-- `createFolderStructure(resources, parentId)`. -/
def createFolderStructure : Nat → List Resource → Option String →
    Option (List BrunoNode)
  | 0, _, _ => none
  | fuel + 1, resources, parentId =>
    let requestGroups := resources.filter
      (fun r => decide (r._type = "request_group" ∧ r.parentId = parentId))
    let requests := resources.filter
      (fun r => decide (r._type = "request" ∧ r.parentId = parentId))
    match createFolderList fuel resources requestGroups 0 requestGroups with
    | none => none
    | some folders =>
      some (folders ++ requests.enum.map
        (fun p => BrunoNode.item (transformInsomniaRequestItem p.2 p.1 requests)))

/-- The `requestGroups.map((folder, index, allFolder) => ...)` loop: build
each folder node.  Note that the recursive `createFolderStructure` call
already contains the requests parented to the folder, and the same requests
are concatenated once more. -/
def createFolderList : Nat → List Resource → List Resource → Nat → List Resource →
    Option (List BrunoNode)
  | _, _, _, _, [] => some []
  | 0, _, _, _, _ :: _ => none
  | fuel + 1, resources, allFolder, index, folder :: rest =>
    let name := addSuffixToDuplicateName folder index allFolder
    let folderRequests := resources.filter
      (fun r => decide (r._type = "request" ∧ r.parentId = some folder._id))
    match createFolderStructure fuel resources (some folder._id) with
    | none => none
    | some sub =>
      match createFolderList fuel resources allFolder (index + 1) rest with
      | none => none
      | some more =>
        some (BrunoNode.folder uuid name
          (sub ++ folderRequests.enum.map
            (fun p => BrunoNode.item (transformInsomniaRequestItem p.2 p.1 folderRequests)))
          :: more)

end

/-! ## `createEnvironments` -/

/-- The `.map(([key, value]) => ...)` over the flattened entries, evaluated
left to right; `none` models the `TypeError` thrown by `value.toString()`
on a `null` entry value. -/
def mapToVariables : List (String × JVal) → Option (List BrunoVariable)
  | [] => some []
  | kv :: rest =>
    match jsToString kv.2 with
    | none => none
    | some s =>
      (mapToVariables rest).map (fun more =>
        { uid := uuid, name := kv.1, value := normalizeVariables s,
          enabled := true, secret := false, type := "text" } :: more)

/-- The variable list of one environment:
`Object.entries(flatten(environment.data || {}, { delimiter: '_' }))` mapped
to variable records. -/
def mkVariables (environment : Resource) : Option (List BrunoVariable) :=
  mapToVariables (flattenTop (jsOrEmptyObj environment.data))

/-- Outcome of the environment recursion: a value, a thrown exception
(propagating to the surrounding catch), or the modelling artifact for the
unbounded recursion on cyclic inputs. -/
inductive EnvResult where
  | ok (envs : List BrunoEnvironment)
  | exn
  | fuelOut
deriving DecidableEq

mutual

/-- `createEnvironments(resources, parentId)`. -/
def createEnvironments : Nat → List Resource → Option String → EnvResult
  | 0, _, _ => .fuelOut
  | fuel + 1, resources, parentId =>
    createEnvList fuel resources
      (resources.filter (fun r => decide (r._type = "environment" ∧ r.parentId = parentId)))

/-- The `environments.reduce(...)` loop: for each matching environment, its
flattened variables, then (recursively) its child environments, then the
remaining siblings. -/
def createEnvList : Nat → List Resource → List Resource → EnvResult
  | _, _, [] => .ok []
  | 0, _, _ :: _ => .fuelOut
  | fuel + 1, resources, environment :: rest =>
    match mkVariables environment with
    | none => .exn
    | some vars =>
      match createEnvironments fuel resources (some environment._id) with
      | .exn => .exn
      | .fuelOut => .fuelOut
      | .ok children =>
        match createEnvList fuel resources rest with
        | .exn => .exn
        | .fuelOut => .fuelOut
        | .ok more =>
          .ok ({ uid := uuid, name := environment.name, «variables» := vars }
            :: children ++ more)

end

/-! ## `parseInsomniaCollection`

On a missing workspace the source calls `reject(...)` and falls through;
the very next property access on `undefined` throws, the catch calls
`reject` again, and the first settlement wins, so the observable outcome is
the structural error.  The model returns it directly. -/

/-- `parseInsomniaCollection(data)`: `some (Except.error e)` is a rejected
promise, `some (Except.ok c)` a resolved one, `none` the fuel artifact. -/
def parseInsomniaCollection (fuel : Nat) (data : InsomniaExport) :
    Option (Except BrunoError BrunoCollection) :=
  let insomniaResources := data.resources
  match insomniaResources.find? (fun r => decide (r._type = "workspace")) with
  | none => some (Except.error { message := "Collection not found inside Insomnia export" })
  | some insomniaCollection =>
    let requestsAndFolders := insomniaResources.filter
      (fun r => decide (r._type = "request" ∨ r._type = "request_group"))
    let environments := insomniaResources.filter
      (fun r => decide (r._type = "environment"))
    match createEnvironments fuel environments (some insomniaCollection._id) with
    | .exn =>
      some (Except.error { message := "An error occurred while parsing the Insomnia collection" })
    | .fuelOut => none
    | .ok envs =>
      match createFolderStructure fuel requestsAndFolders (some insomniaCollection._id) with
      | none => none
      | some items =>
        some (Except.ok { name := insomniaCollection.name, uid := uuid, version := "1",
                          items := items, environments := envs })

/-! ## Auxiliary notions used by the statements -/

/-- An environment resource visited by `createEnvironments`' traversal:
either directly parented to `pid`, or parented (through environment
resources of the list) to a visited environment. -/
inductive EnvReach (resources : List Resource) : Option String → Resource → Prop where
  | direct {e : Resource} {pid : Option String} :
      e ∈ resources → e._type = "environment" → e.parentId = pid →
      EnvReach resources pid e
  | step {e e' : Resource} {pid : Option String} :
      e ∈ resources → e._type = "environment" → e.parentId = pid →
      EnvReach resources (some e._id) e' → EnvReach resources pid e'

/-- Is this node a folder node? -/
def isFolderNode : BrunoNode → Bool
  | .folder _ _ _ => true
  | .item _ => false

/-- All folder nodes of the list occur strictly before all request nodes. -/
def foldersFirst : List BrunoNode → Bool
  | [] => true
  | .folder _ _ _ :: rest => foldersFirst rest
  | .item _ :: rest => rest.all (fun n => !isFolderNode n)

mutual

/-- The §3 ordering invariant, recursively at every folder. -/
def nodeOrdered : BrunoNode → Bool
  | .folder _ _ items => foldersFirst items && nodesOrdered items
  | .item _ => true
termination_by n => sizeOf n
decreasing_by
  all_goals
    try simp only [BrunoNode.folder.sizeOf_spec, List.cons.sizeOf_spec,
      List.nil.sizeOf_spec]
    omega

/-- `nodeOrdered` at every node of a list. -/
def nodesOrdered : List BrunoNode → Bool
  | [] => true
  | n :: rest => nodeOrdered n && nodesOrdered rest
termination_by l => sizeOf l
decreasing_by
  all_goals
    try simp only [BrunoNode.folder.sizeOf_spec, List.cons.sizeOf_spec,
      List.nil.sizeOf_spec]
    omega

end

/-! ## Pre-order reference traversal for the environment ordering claim -/

mutual

/-- The environments visited below `pid`, parent before children, in
document order (same fuel discipline as `createEnvironments`). -/
def preOrderEnvs : Nat → List Resource → Option String → Option (List Resource)
  | 0, _, _ => none
  | fuel + 1, resources, parentId =>
    preOrderEnvList fuel resources
      (resources.filter (fun r => decide (r._type = "environment" ∧ r.parentId = parentId)))

/-- Pre-order traversal of a sibling list. -/
def preOrderEnvList : Nat → List Resource → List Resource → Option (List Resource)
  | _, _, [] => some []
  | 0, _, _ :: _ => none
  | fuel + 1, resources, e :: rest =>
    match preOrderEnvs fuel resources (some e._id) with
    | none => none
    | some kids =>
      match preOrderEnvList fuel resources rest with
      | none => none
      | some more => some (e :: kids ++ more)

end

/-- The record built for one visited environment (`none` when the flattening
coercion throws). -/
def mkEnvRecord (e : Resource) : Option BrunoEnvironment :=
  (mkVariables e).map (fun vars =>
    { uid := uuid, name := e.name, «variables» := vars })

/-- The records of a visited-environment list, failing on the first throw. -/
def mapEnvRecords : List Resource → Option (List BrunoEnvironment)
  | [] => some []
  | e :: rest =>
    match mkEnvRecord e with
    | none => none
    | some env => (mapEnvRecords rest).map (fun more => env :: more)

/-! ## Concrete scenario inputs -/

/-- A resource carrying only a name (for sibling-list examples). -/
def namedRes (n : String) : Resource := { name := n }

/-- The workspace of the spec's minimal end-to-end export. -/
def wsResource : Resource := { _id := "wrk_1", _type := "workspace", name := "My Workspace" }

/-- The request group named `Auth` of the minimal export. -/
def authGroup : Resource :=
  { _id := "fld_1", parentId := some "wrk_1", _type := "request_group", name := "Auth" }

/-- The basic-auth GET request of the minimal export. -/
def loginRequest : Resource :=
  { _id := "req_1", parentId := some "fld_1", _type := "request", name := "Login",
    url := some "\x7b\x7bbase_url\x7d\x7d/login", method := some "GET",
    authentication := some { type := some "basic", username := some "u", password := some "p" } }

/-- The environment with `token: "x"` of the minimal export. -/
def baseEnv : Resource :=
  { _id := "env_1", parentId := some "wrk_1", _type := "environment", name := "Base Env",
    data := some (.obj (.cons "token" (.str "x") .nil)) }

/-- The minimal end-to-end export document. -/
def minimalExport : InsomniaExport :=
  { resources := [wsResource, authGroup, loginRequest, baseEnv] }

/-- The target item the transformer produces for `loginRequest`. -/
def loginItem : BrunoRequestItem :=
  { uid := uuid, name := "Login", type := "http-request",
    request :=
      { url := "\x7b\x7bbase_url\x7d\x7d/login", method := some "GET",
        auth := { mode := "basic", basic := some { username := "u", password := "p" },
                  bearer := none, digest := none },
        headers := [], params := [], body := initBrunoBody } }

/-- An environment that is not parented under the workspace, with a `null`
value in its data. -/
def orphanEnv : Resource :=
  { _id := "env_2", parentId := some "zzz", _type := "environment", name := "Orphan",
    data := some (.obj (.cons "x" JVal.null .nil)) }

/-- A document whose only environment is the orphan one. -/
def orphanExport : InsomniaExport := { resources := [wsResource, orphanEnv] }

/-- An environment directly parented to the workspace whose data contains a
`null` value. -/
def badEnv : Resource :=
  { _id := "env_b", parentId := some "wrk_1", _type := "environment", name := "Bad",
    data := some (.obj (.cons "x" JVal.null .nil)) }

/-- An environment whose raw data is the nested object `{a: {b: 1, c: 2}}`. -/
def nestedEnv : Resource :=
  { _id := "env_n", parentId := some "w", _type := "environment", name := "Nested",
    data := some (.obj (.cons "a"
      (.obj (.cons "b" (.num "1") (.cons "c" (.num "2") .nil))) .nil)) }

/-! # Theorems -/

/-! ## Naming de-duplicator (C2) -/

/-- The reduce-based predecessor count equals the count of identically-named
members among the first `index - k` remaining members. -/
theorem dedupCountFrom_eq (nm : String) (index : Nat) :
    ∀ (l : List Resource) (k : Nat),
      dedupCountFrom nm index k l =
        ((l.take (index - k)).filter (fun r => decide (r.name = nm))).length := by
  intro l
  induction l with
  | nil => intro k; simp [dedupCountFrom]
  | cons r rest ih =>
    intro k
    rw [dedupCountFrom]
    rcases Nat.lt_or_ge k index with hk | hk
    · have hs : index - k = (index - (k + 1)) + 1 := by omega
      rw [hs]
      simp only [List.take_succ_cons, List.filter_cons]
      rw [ih (k + 1)]
      by_cases hn : r.name = nm
      · rw [if_pos ⟨hn, hk⟩]
        simp only [hn, decide_True, if_true, List.length_cons]
        omega
      · rw [if_neg (fun hc => hn hc.1)]
        simp [hn]
    · have h0 : index - k = 0 := by omega
      have h1 : index - (k + 1) = 0 := by omega
      rw [h0, ih (k + 1), h1]
      simp [Nat.not_lt.mpr hk]

/-- `addSuffixToDuplicateName` in terms of a take-and-filter count. -/
theorem addSuffixToDuplicateName_eq (item : Resource) (index : Nat)
    (allItems : List Resource) :
    addSuffixToDuplicateName item index allItems =
      (if ((allItems.take index).filter (fun r => decide (r.name = item.name))).length = 0
       then item.name
       else item.name ++ "_" ++
         toString ((allItems.take index).filter
           (fun r => decide (r.name = item.name))).length) := by
  simp only [addSuffixToDuplicateName]
  rw [dedupCountFrom_eq, Nat.sub_zero]
  by_cases h0 : ((allItems.take index).filter
      (fun r => decide (r.name = item.name))).length = 0
  · rw [if_neg (fun hc => hc h0), if_pos h0]
  · rw [if_pos h0, if_neg h0]

/-- C2.  For every ordered sibling list and index `i` into it, the name
de-duplicator returns the member's source name unchanged when no sibling at
a strictly lower index has the same name, and otherwise returns `name_N`
where `N` is the number of strictly earlier siblings with exactly the same
name; siblings named `A, B, A, A` receive display names `A, B, A_1, A_2`;
and any sibling list with pairwise-distinct names is returned unchanged. -/
theorem dedup_suffix_counts_earlier_duplicates :
    (∀ (items : List Resource) (i : Nat) (h : i < items.length),
      addSuffixToDuplicateName (items.get ⟨i, h⟩) i items =
        (if ((items.take i).filter
              (fun r => decide (r.name = (items.get ⟨i, h⟩).name))).length = 0
         then (items.get ⟨i, h⟩).name
         else (items.get ⟨i, h⟩).name ++ "_" ++
           toString ((items.take i).filter
             (fun r => decide (r.name = (items.get ⟨i, h⟩).name))).length)) ∧
    (([namedRes "A", namedRes "B", namedRes "A", namedRes "A"].enum.map
        (fun p => addSuffixToDuplicateName p.2 p.1
          [namedRes "A", namedRes "B", namedRes "A", namedRes "A"])) =
      ["A", "B", "A_1", "A_2"]) ∧
    (∀ (items : List Resource) (i : Nat) (h : i < items.length),
      (items.map Resource.name).Nodup →
      addSuffixToDuplicateName (items.get ⟨i, h⟩) i items = (items.get ⟨i, h⟩).name) := by
  refine ⟨fun items i h => addSuffixToDuplicateName_eq _ _ _, by decide, ?_⟩
  intro items i h hnd
  rw [addSuffixToDuplicateName_eq]
  have hcount : ((items.take i).filter
      (fun r => decide (r.name = (items.get ⟨i, h⟩).name))).length = 0 := by
    rw [List.length_eq_zero, List.filter_eq_nil]
    intro r hr
    simp only [decide_eq_true_eq]
    intro heq
    have hrmem : r.name ∈ (items.map Resource.name).take i := by
      rw [← List.map_take]
      exact List.mem_map_of_mem Resource.name hr
    have hi : i < (items.map Resource.name).length := by simpa using h
    have hdrop : (items.map Resource.name).drop i =
        (items.map Resource.name)[i] :: (items.map Resource.name).drop (i + 1) :=
      List.drop_eq_getElem_cons hi
    have hgetname : (items.map Resource.name)[i] = (items.get ⟨i, h⟩).name := by
      simp
    have hmemdrop : (items.get ⟨i, h⟩).name ∈ (items.map Resource.name).drop i := by
      rw [hdrop, hgetname]
      exact List.mem_cons_self _ _
    have hsplit := List.take_append_drop i (items.map Resource.name)
    have hnd2 : ((items.map Resource.name).take i ++
        (items.map Resource.name).drop i).Nodup := by rwa [hsplit]
    have hdisj := List.disjoint_of_nodup_append hnd2
    exact hdisj (heq ▸ hrmem) hmemdrop
  rw [if_pos hcount]

/-- Witness for C2 at a concrete sibling list with distinct names. -/
theorem dedup_suffix_counts_earlier_duplicates_witness :
    addSuffixToDuplicateName ([namedRes "A", namedRes "B"].get ⟨1, by decide⟩) 1
      [namedRes "A", namedRes "B"] = "B" :=
  dedup_suffix_counts_earlier_duplicates.2.2 [namedRes "A", namedRes "B"] 1
    (by decide) (by decide)

/-! ## Auth mapping (C6) -/

/-- C6.  The auth mapping is total: `basic` yields basic mode with rewritten
username/password, `bearer` yields bearer mode with a rewritten token, and
every other (or absent) `authentication.type` yields mode `none` with null
`basic` and `bearer` payloads. -/
theorem auth_mapping_total (request : Resource) (index : Nat)
    (allRequests : List Resource) :
    (((request.authentication.bind SrcAuth.type).getD "" = "basic" →
      (transformInsomniaRequestItem request index allRequests).request.auth =
        { mode := "basic",
          basic := some
            { username := normalizeVariables
                ((request.authentication.bind SrcAuth.username).getD ""),
              password := normalizeVariables
                ((request.authentication.bind SrcAuth.password).getD "") },
          bearer := none, digest := none }) ∧
     ((request.authentication.bind SrcAuth.type).getD "" = "bearer" →
      (transformInsomniaRequestItem request index allRequests).request.auth =
        { mode := "bearer", basic := none,
          bearer := some
            { token := normalizeVariables
                ((request.authentication.bind SrcAuth.token).getD "") },
          digest := none }) ∧
     ((request.authentication.bind SrcAuth.type).getD "" ≠ "basic" →
      (request.authentication.bind SrcAuth.type).getD "" ≠ "bearer" →
      (transformInsomniaRequestItem request index allRequests).request.auth =
        { mode := "none", basic := none, bearer := none, digest := none })) := by
  refine ⟨?_, ?_, ?_⟩
  · intro h
    simp only [transformInsomniaRequestItem]
    rw [if_pos h]
  · intro h
    simp only [transformInsomniaRequestItem]
    rw [h, if_neg (by decide), if_pos rfl]
  · intro h1 h2
    simp only [transformInsomniaRequestItem]
    rw [if_neg h1, if_neg h2]

/-- Witness for C6: an unrecognized auth type maps to mode `none`. -/
theorem auth_mapping_total_witness :
    (transformInsomniaRequestItem
      { authentication := some { type := some "oauth2" } } 0 []).request.auth =
      { mode := "none", basic := none, bearer := none, digest := none } :=
  (auth_mapping_total { authentication := some { type := some "oauth2" } } 0 []).2.2
    (by decide) (by decide)

/-! ## Missing workspace (C9) -/

/-- C9.  A document with no resource of type `workspace` rejects with the
structural error message (first settlement of the promise), for every fuel —
in particular at fuel `0`, showing that neither tree construction nor
environment construction is ever entered; no collection is produced. -/
theorem no_workspace_rejects_structurally (fuel : Nat) (data : InsomniaExport)
    (h : ∀ r ∈ data.resources, r._type ≠ "workspace") :
    parseInsomniaCollection fuel data =
      some (Except.error { message := "Collection not found inside Insomnia export" }) := by
  have hfind : data.resources.find? (fun r => decide (r._type = "workspace")) = none := by
    apply List.find?_eq_none.mpr
    intro r hr
    simpa using h r hr
  simp [parseInsomniaCollection, hfind]

/-- Witness for C9 at a concrete document, with fuel `0`. -/
theorem no_workspace_rejects_structurally_witness :
    parseInsomniaCollection 0 { resources := [{ _type := "request_group" }] } =
      some (Except.error { message := "Collection not found inside Insomnia export" }) :=
  no_workspace_rejects_structurally 0 { resources := [{ _type := "request_group" }] }
    (by intro r hr; simp at hr; rw [hr]; decide)

/-! ## End-to-end minimal export (C1)

The spec requires the `Auth` folder to contain the login request exactly
once.  In the source, each folder's `items` is built as
`createFolderStructure(resources, folder._id).concat(requests.map(...))`,
and the recursive call already returns the requests parented to the folder;
they are therefore emitted twice. -/

/-- C1 (divergence witness).  Converting the minimal export yields the
`Auth` folder with the login request item twice — not once as the spec's
end-to-end scenario requires — while the environment part matches the spec
(`Base Env` with the single variable `token = "x"`). -/
theorem minimal_export_duplicates_folder_request :
    parseInsomniaCollection 5 minimalExport =
      some (Except.ok
        { name := "My Workspace",
          uid := uuid,
          version := "1",
          items := [BrunoNode.folder uuid "Auth" [.item loginItem, .item loginItem]],
          environments := [{
            uid := uuid,
            name := "Base Env",
            «variables» := [{
              uid := uuid,
              name := "token",
              value := "x",
              enabled := true,
              secret := false,
              type := "text" }] }] }) :=
  rfl

/-! ## Body mapping (C5) -/

/-- C5.  The body mapping is total over MIME types: a base MIME type (the
part before any `;`) outside the seven recognized ones — including an absent
one — leaves the initialized body (`mode = "none"`, no payload) and the
`http-request` node type; each recognized MIME type yields exactly its mode
with its payload field populated; `application/graphql` additionally turns
the node into a `graphql-request`; and a graphql body text that fails to
parse as JSON degrades to empty query and variables instead of failing. -/
theorem body_mapping_total (request : Resource) (index : Nat)
    (allRequests : List Resource) :
    ((splitSemiFirst ((request.body.bind SrcBody.mimeType).getD "") ∉
        ["application/json", "application/x-www-form-urlencoded",
         "multipart/form-data", "text/plain", "text/xml", "application/xml",
         "application/graphql"] →
      (transformInsomniaRequestItem request index allRequests).type = "http-request" ∧
      (transformInsomniaRequestItem request index allRequests).request.body = initBrunoBody) ∧
     (splitSemiFirst ((request.body.bind SrcBody.mimeType).getD "") = "application/json" →
      (transformInsomniaRequestItem request index allRequests).type = "http-request" ∧
      (transformInsomniaRequestItem request index allRequests).request.body =
        { initBrunoBody with
          mode := "json",
          json := some (normalizeVariablesOpt (request.body.bind SrcBody.text)) }) ∧
     (splitSemiFirst ((request.body.bind SrcBody.mimeType).getD "") =
        "application/x-www-form-urlencoded" →
      (transformInsomniaRequestItem request index allRequests).type = "http-request" ∧
      (transformInsomniaRequestItem request index allRequests).request.body =
        { initBrunoBody with
          mode := "formUrlEncoded",
          formUrlEncoded := ((request.body.map SrcBody.params).getD []).map (fun p =>
            { uid := uuid, name := p.name, value := normalizeVariablesOpt p.value,
              description := p.description, enabled := !(p.disabled.getD false) }) }) ∧
     (splitSemiFirst ((request.body.bind SrcBody.mimeType).getD "") = "multipart/form-data" →
      (transformInsomniaRequestItem request index allRequests).type = "http-request" ∧
      (transformInsomniaRequestItem request index allRequests).request.body =
        { initBrunoBody with
          mode := "multipartForm",
          multipartForm := ((request.body.map SrcBody.params).getD []).map (fun p =>
            { uid := uuid, type := "text", name := p.name,
              value := normalizeVariablesOpt p.value,
              description := p.description, enabled := !(p.disabled.getD false) }) }) ∧
     (splitSemiFirst ((request.body.bind SrcBody.mimeType).getD "") = "text/plain" →
      (transformInsomniaRequestItem request index allRequests).type = "http-request" ∧
      (transformInsomniaRequestItem request index allRequests).request.body =
        { initBrunoBody with
          mode := "text",
          text := some (normalizeVariablesOpt (request.body.bind SrcBody.text)) }) ∧
     (splitSemiFirst ((request.body.bind SrcBody.mimeType).getD "") = "text/xml" ∨
      splitSemiFirst ((request.body.bind SrcBody.mimeType).getD "") = "application/xml" →
      (transformInsomniaRequestItem request index allRequests).type = "http-request" ∧
      (transformInsomniaRequestItem request index allRequests).request.body =
        { initBrunoBody with
          mode := "xml",
          xml := some (normalizeVariablesOpt (request.body.bind SrcBody.text)) }) ∧
     (splitSemiFirst ((request.body.bind SrcBody.mimeType).getD "") = "application/graphql" →
      (transformInsomniaRequestItem request index allRequests).type = "graphql-request" ∧
      (transformInsomniaRequestItem request index allRequests).request.body =
        { initBrunoBody with
          mode := "graphql",
          graphql := some (parseGraphQL (normalizeVariablesOpt
            (request.body.bind SrcBody.text))) }) ∧
     (∀ text : String, jsonParse text = none →
      parseGraphQL text = { query := some (.str ""), «variables» := some "" })) := by
  refine ⟨?_, ?_, ?_, ?_, ?_, ?_, ?_, ?_⟩
  · intro h
    have h1 : splitSemiFirst ((request.body.bind SrcBody.mimeType).getD "") ≠
        "application/json" := fun he => h (by simp [he])
    have h2 : splitSemiFirst ((request.body.bind SrcBody.mimeType).getD "") ≠
        "application/x-www-form-urlencoded" := fun he => h (by simp [he])
    have h3 : splitSemiFirst ((request.body.bind SrcBody.mimeType).getD "") ≠
        "multipart/form-data" := fun he => h (by simp [he])
    have h4 : splitSemiFirst ((request.body.bind SrcBody.mimeType).getD "") ≠
        "text/plain" := fun he => h (by simp [he])
    have h5 : ¬(splitSemiFirst ((request.body.bind SrcBody.mimeType).getD "") = "text/xml" ∨
        splitSemiFirst ((request.body.bind SrcBody.mimeType).getD "") = "application/xml") := by
      rintro (he | he) <;> exact h (by simp [he])
    have h6 : splitSemiFirst ((request.body.bind SrcBody.mimeType).getD "") ≠
        "application/graphql" := fun he => h (by simp [he])
    simp only [transformInsomniaRequestItem]
    rw [if_neg h1, if_neg h2, if_neg h3, if_neg h4, if_neg h5, if_neg h6]
    exact ⟨rfl, rfl⟩
  · intro h
    simp only [transformInsomniaRequestItem]
    rw [if_pos h]
    exact ⟨rfl, rfl⟩
  · intro h
    simp only [transformInsomniaRequestItem]
    rw [h, if_neg (by decide), if_pos rfl]
    exact ⟨rfl, rfl⟩
  · intro h
    simp only [transformInsomniaRequestItem]
    rw [h, if_neg (by decide), if_neg (by decide), if_pos rfl]
    exact ⟨rfl, rfl⟩
  · intro h
    simp only [transformInsomniaRequestItem]
    rw [h, if_neg (by decide), if_neg (by decide), if_neg (by decide), if_pos rfl]
    exact ⟨rfl, rfl⟩
  · intro h
    simp only [transformInsomniaRequestItem]
    rcases h with he | he <;>
      rw [he, if_neg (by decide), if_neg (by decide), if_neg (by decide),
        if_neg (by decide), if_pos (by decide)] <;>
      exact ⟨rfl, rfl⟩
  · intro h
    simp only [transformInsomniaRequestItem]
    rw [h, if_neg (by decide), if_neg (by decide), if_neg (by decide),
      if_neg (by decide), if_neg (by decide), if_pos rfl]
    exact ⟨rfl, rfl⟩
  · intro text h
    simp only [parseGraphQL, h]

/-- Witness for C5: an unrecognized MIME type degrades to `mode = "none"`,
and an unparsable graphql body degrades to empty query and variables. -/
theorem body_mapping_total_witness :
    ((transformInsomniaRequestItem
        { body := some { mimeType := some "application/pdf; charset=x" } } 0 []).request.body =
      initBrunoBody) ∧
    parseGraphQL "nope" = { query := some (.str ""), «variables» := some "" } :=
  ⟨((body_mapping_total
      { body := some { mimeType := some "application/pdf; charset=x" } } 0 []).1
      (by decide)).2,
   (body_mapping_total { body := none } 0 []).2.2.2.2.2.2.2 "nope" rfl⟩

/-! ## Tree ordering invariant (C8) -/

/-- A list of non-folder nodes satisfies the ordering shape. -/
theorem foldersFirst_of_all_items :
    ∀ l : List BrunoNode, (∀ n ∈ l, isFolderNode n = false) → foldersFirst l = true := by
  intro l h
  cases l with
  | nil => rfl
  | cons n rest =>
    cases n with
    | folder u nm its => simpa [isFolderNode] using h _ (List.mem_cons_self _ _)
    | item r =>
      simp only [foldersFirst, List.all_eq_true]
      intro x hx
      simp [h x (List.mem_cons_of_mem _ hx)]

/-- Appending non-folder nodes preserves the ordering shape. -/
theorem foldersFirst_append_items :
    ∀ l B : List BrunoNode, foldersFirst l = true →
      (∀ n ∈ B, isFolderNode n = false) → foldersFirst (l ++ B) = true := by
  intro l
  induction l with
  | nil => intro B _ hB; simpa using foldersFirst_of_all_items B hB
  | cons n rest ih =>
    intro B hl hB
    cases n with
    | folder u nm its =>
      simp only [foldersFirst, List.cons_append] at *
      exact ih B hl hB
    | item r =>
      simp only [foldersFirst, List.all_eq_true] at hl
      simp only [List.cons_append, foldersFirst, List.all_eq_true]
      intro x hx
      rcases List.mem_append.mp hx with hx | hx
      · exact hl x hx
      · simp [hB x hx]

/-- A list of folder nodes satisfies the ordering shape. -/
theorem foldersFirst_of_all_folders :
    ∀ l : List BrunoNode, (∀ n ∈ l, isFolderNode n = true) → foldersFirst l = true := by
  intro l h
  induction l with
  | nil => rfl
  | cons n rest ih =>
    cases n with
    | folder u nm its =>
      simp only [foldersFirst]
      exact ih (fun x hx => h x (List.mem_cons_of_mem _ hx))
    | item r => simpa [isFolderNode] using h _ (List.mem_cons_self _ _)

/-- `nodesOrdered` distributes over append. -/
theorem nodesOrdered_append :
    ∀ A B : List BrunoNode, nodesOrdered (A ++ B) = (nodesOrdered A && nodesOrdered B) := by
  intro A B
  induction A with
  | nil => simp [nodesOrdered]
  | cons n rest ih => simp [nodesOrdered, ih, Bool.and_assoc]

/-- Non-folder nodes are ordered. -/
theorem nodesOrdered_of_all_items :
    ∀ l : List BrunoNode, (∀ n ∈ l, isFolderNode n = false) → nodesOrdered l = true := by
  intro l h
  induction l with
  | nil => simp [nodesOrdered]
  | cons n rest ih =>
    cases n with
    | folder u nm its => simpa [isFolderNode] using h _ (List.mem_cons_self _ _)
    | item r =>
      simp only [nodesOrdered, nodeOrdered, Bool.true_and]
      exact ih (fun x hx => h x (List.mem_cons_of_mem _ hx))

/-- A mapped request list consists of non-folder nodes. -/
theorem mapped_requests_not_folders (requests : List Resource) :
    ∀ n ∈ requests.enum.map
      (fun p => BrunoNode.item (transformInsomniaRequestItem p.2 p.1 requests)),
      isFolderNode n = false := by
  intro n hn
  rcases List.mem_map.mp hn with ⟨p, _, hp⟩
  rw [← hp]
  rfl

/-- Joint induction for C8: every produced level is folders-then-requests,
and the folder loop produces ordered folder nodes. -/
theorem createFolder_ordered_aux : ∀ fuel : Nat,
    (∀ resources parentId items,
      createFolderStructure fuel resources parentId = some items →
      foldersFirst items = true ∧ nodesOrdered items = true) ∧
    (∀ resources allFolder index rem nodes,
      createFolderList fuel resources allFolder index rem = some nodes →
      (∀ n ∈ nodes, isFolderNode n = true) ∧ nodesOrdered nodes = true) := by
  intro fuel
  induction fuel with
  | zero =>
    constructor
    · intro resources parentId items h
      simp [createFolderStructure] at h
    · intro resources allFolder index rem nodes h
      cases rem with
      | nil =>
        simp only [createFolderList, Option.some.injEq] at h
        subst h
        exact ⟨fun n hn => absurd hn (List.not_mem_nil n), by simp [nodesOrdered]⟩
      | cons f rest => simp [createFolderList] at h
  | succ fuel ih =>
    constructor
    · intro resources parentId items h
      simp only [createFolderStructure] at h
      cases hfl : createFolderList fuel resources
          (resources.filter (fun r => decide (r._type = "request_group" ∧ r.parentId = parentId)))
          0
          (resources.filter (fun r => decide (r._type = "request_group" ∧ r.parentId = parentId))) with
      | none => rw [hfl] at h; cases h
      | some folders =>
        rw [hfl] at h
        have hq := ih.2 _ _ _ _ _ hfl
        cases h
        constructor
        · exact foldersFirst_append_items _ _
            (foldersFirst_of_all_folders _ hq.1) (mapped_requests_not_folders _)
        · rw [nodesOrdered_append, hq.2, nodesOrdered_of_all_items _ (mapped_requests_not_folders _)]
          rfl
    · intro resources allFolder index rem nodes h
      cases rem with
      | nil =>
        simp only [createFolderList, Option.some.injEq] at h
        subst h
        exact ⟨fun n hn => absurd hn (List.not_mem_nil n), by simp [nodesOrdered]⟩
      | cons folder rest =>
        simp only [createFolderList] at h
        cases hsub : createFolderStructure fuel resources (some folder._id) with
        | none => rw [hsub] at h; cases h
        | some sub =>
          rw [hsub] at h
          cases hmore : createFolderList fuel resources allFolder (index + 1) rest with
          | none => rw [hmore] at h; cases h
          | some more =>
            rw [hmore] at h
            have hp := ih.1 _ _ _ hsub
            have hq := ih.2 _ _ _ _ _ hmore
            cases h
            constructor
            · intro n hn
              rcases List.mem_cons.mp hn with hn | hn
              · rw [hn]; rfl
              · exact hq.1 n hn
            · simp only [nodesOrdered, nodeOrdered]
              rw [foldersFirst_append_items _ _ hp.1 (mapped_requests_not_folders _),
                nodesOrdered_append, hp.2,
                nodesOrdered_of_all_items _ (mapped_requests_not_folders _), hq.2]
              rfl

/-- C8.  For every resource list, parent id and fuel, whenever the tree
builder completes, its emitted level (including the root level) lists all
folder nodes strictly before all leaf request nodes, and the same holds
recursively inside every emitted folder — independent of the declaration
order of `request_group` and `request` resources. -/
theorem folder_items_before_requests (fuel : Nat) (resources : List Resource)
    (parentId : Option String) (items : List BrunoNode)
    (h : createFolderStructure fuel resources parentId = some items) :
    foldersFirst items = true ∧ nodesOrdered items = true :=
  (createFolder_ordered_aux fuel).1 resources parentId items h

/-- Witness for C8 on a concrete resource list that declares a request
before its sibling folder. -/
theorem folder_items_before_requests_witness :
    foldersFirst [BrunoNode.item (transformInsomniaRequestItem
        { _id := "r1", parentId := some "w", _type := "request", name := "R" } 0
        [{ _id := "r1", parentId := some "w", _type := "request", name := "R" }])] = true ∧
    nodesOrdered [BrunoNode.item (transformInsomniaRequestItem
        { _id := "r1", parentId := some "w", _type := "request", name := "R" } 0
        [{ _id := "r1", parentId := some "w", _type := "request", name := "R" }])] = true :=
  folder_items_before_requests 1
    [{ _id := "r1", parentId := some "w", _type := "request", name := "R" }]
    (some "w") _ rfl

/-! ## Environment flattening and pre-order (C7) -/

/-- Joint induction: whenever the environment recursion completes without a
throw, its output is exactly the record list of the pre-order traversal
(parent first, then its children recursively, then the later siblings). -/
theorem createEnv_preorder_aux : ∀ fuel : Nat,
    (∀ resources parentId l,
      createEnvironments fuel resources parentId = .ok l →
      ∃ vs, preOrderEnvs fuel resources parentId = some vs ∧ mapEnvRecords vs = some l) ∧
    (∀ resources lst l,
      createEnvList fuel resources lst = .ok l →
      ∃ vs, preOrderEnvList fuel resources lst = some vs ∧ mapEnvRecords vs = some l) := by
  intro fuel
  induction fuel with
  | zero =>
    constructor
    · intro resources parentId l h
      simp [createEnvironments] at h
    · intro resources lst l h
      cases lst with
      | nil =>
        simp only [createEnvList, EnvResult.ok.injEq] at h
        subst h
        exact ⟨[], rfl, rfl⟩
      | cons e rest => simp [createEnvList] at h
  | succ fuel ih =>
    constructor
    · intro resources parentId l h
      simp only [createEnvironments] at h
      obtain ⟨vs, h1, h2⟩ := ih.2 _ _ _ h
      exact ⟨vs, h1, h2⟩
    · intro resources lst l h
      cases lst with
      | nil =>
        simp only [createEnvList, EnvResult.ok.injEq] at h
        subst h
        exact ⟨[], rfl, rfl⟩
      | cons e rest =>
        simp only [createEnvList] at h
        cases hv : mkVariables e with
        | none => rw [hv] at h; cases h
        | some vars =>
          rw [hv] at h
          cases hk : createEnvironments fuel resources (some e._id) with
          | exn => rw [hk] at h; cases h
          | fuelOut => rw [hk] at h; cases h
          | ok children =>
            rw [hk] at h
            cases hm : createEnvList fuel resources rest with
            | exn => rw [hm] at h; cases h
            | fuelOut => rw [hm] at h; cases h
            | ok more =>
              rw [hm] at h
              cases h
              obtain ⟨vsk, hk1, hk2⟩ := ih.1 _ _ _ hk
              obtain ⟨vsm, hm1, hm2⟩ := ih.2 _ _ _ hm
              refine ⟨e :: vsk ++ vsm, ?_, ?_⟩
              · simp only [preOrderEnvList, hk1, hm1]
              · have hrec : mkEnvRecord e =
                    some { uid := uuid, name := e.name, «variables» := vars } := by
                  simp [mkEnvRecord, hv]
                have happ : mapEnvRecords (vsk ++ vsm) = some (children ++ more) := by
                  clear hk1 hm1 hk hm hv
                  induction vsk generalizing children with
                  | nil =>
                    simp only [mapEnvRecords, Option.some.injEq] at hk2
                    subst hk2
                    simpa using hm2
                  | cons v vsk' ih2 =>
                    simp only [mapEnvRecords] at hk2 ⊢
                    cases hr : mkEnvRecord v with
                    | none => rw [hr] at hk2; cases hk2
                    | some env =>
                      rw [hr] at hk2
                      cases hrest : mapEnvRecords vsk' with
                      | none => rw [hrest] at hk2; cases hk2
                      | some tail =>
                        rw [hrest] at hk2
                        injection hk2 with hk2
                        subst hk2
                        simp only [List.cons_append, mapEnvRecords, hr]
                        rw [show vsk'.append vsm = vsk' ++ vsm from rfl, ih2 tail hrest]
                        rfl
                simp only [mapEnvRecords, hrec]
                rw [show vsk.append vsm = vsk ++ vsm from rfl, happ]
                rfl

/-- C7.  The environment transformer flattens raw data `{a: {b: 1, c: 2}}`
into exactly the two variable records named `a_b` and `a_c`, with values
coerced to text and `enabled`/`secret` set to `true`/`false`; and for every
environment forest on which the recursion completes without a throw, the
output equals the record list of the pre-order traversal, i.e. child
environments are appended after their parent, recursively. -/
theorem environment_flattening_and_preorder :
    (createEnvironments 3 [nestedEnv] (some "w") =
      .ok [{ uid := uuid, name := "Nested",
             «variables» :=
               [{ uid := uuid, name := "a_b", value := "1",
                  enabled := true, secret := false, type := "text" },
                { uid := uuid, name := "a_c", value := "2",
                  enabled := true, secret := false, type := "text" }] }]) ∧
    (∀ (fuel : Nat) (resources : List Resource) (parentId : Option String)
       (l : List BrunoEnvironment),
      createEnvironments fuel resources parentId = .ok l →
      ∃ vs, preOrderEnvs fuel resources parentId = some vs ∧
        mapEnvRecords vs = some l) :=
  ⟨rfl, fun fuel resources parentId l h =>
    (createEnv_preorder_aux fuel).1 resources parentId l h⟩

/-- Witness for C7's pre-order part at a concrete two-level forest (a child
environment parented to `Nested`). -/
theorem environment_flattening_and_preorder_witness :
    preOrderEnvs 5 [nestedEnv,
      { _id := "env_c", parentId := some "env_n", _type := "environment",
        name := "Child", data := some (.obj (.cons "k" (.str "v") .nil)) }] (some "w") =
      some [nestedEnv,
        { _id := "env_c", parentId := some "env_n", _type := "environment",
          name := "Child", data := some (.obj (.cons "k" (.str "v") .nil)) }] ∧
    mapEnvRecords [nestedEnv,
      { _id := "env_c", parentId := some "env_n", _type := "environment",
        name := "Child", data := some (.obj (.cons "k" (.str "v") .nil)) }] =
      some [{ uid := uuid, name := "Nested",
              «variables» :=
                [{ uid := uuid, name := "a_b", value := "1",
                   enabled := true, secret := false, type := "text" },
                 { uid := uuid, name := "a_c", value := "2",
                   enabled := true, secret := false, type := "text" }] },
            { uid := uuid, name := "Child",
              «variables» :=
                [{ uid := uuid, name := "k", value := "v",
                   enabled := true, secret := false, type := "text" }] }] := by
  obtain ⟨vs, h1, h2⟩ := environment_flattening_and_preorder.2 5
    [nestedEnv,
      { _id := "env_c", parentId := some "env_n", _type := "environment",
        name := "Child", data := some (.obj (.cons "k" (.str "v") .nil)) }]
    (some "w") _ rfl
  have h0 : preOrderEnvs 5 [nestedEnv,
      { _id := "env_c", parentId := some "env_n", _type := "environment",
        name := "Child", data := some (.obj (.cons "k" (.str "v") .nil)) }] (some "w") =
      some [nestedEnv,
        { _id := "env_c", parentId := some "env_n", _type := "environment",
          name := "Child", data := some (.obj (.cons "k" (.str "v") .nil)) }] := rfl
  rw [h1] at h0
  injection h0 with h0
  refine ⟨by rw [h1, h0], ?_⟩
  rw [← h0]
  exact h2

/-! ## Null environment values (C10)

The traversal only flattens environments whose `parentId` chain reaches the
workspace; a `null` value in an environment outside that chain is never
coerced and the conversion succeeds.  For the visited environments the
claimed rejection does hold. -/

/-- A flattened entry list containing a `null` value makes the record
construction throw. -/
theorem mapToVariables_none_of_null :
    ∀ l : List (String × JVal), (∃ kv ∈ l, kv.2 = JVal.null) →
      mapToVariables l = none := by
  intro l h
  induction l with
  | nil => rcases h with ⟨kv, hmem, _⟩; cases hmem
  | cons kv rest ih =>
    rcases h with ⟨kv', hmem, hnull⟩
    rcases List.mem_cons.mp hmem with he | he
    · subst he
      rw [mapToVariables, hnull]
      rfl
    · rw [mapToVariables]
      cases hs : jsToString kv.2 with
      | none => rfl
      | some s => rw [ih ⟨kv', he, hnull⟩]; rfl

/-- The coercion of a visited environment with a `null` leaf throws. -/
theorem mkVariables_none_of_null (e : Resource)
    (h : ∃ kv ∈ flattenTop (jsOrEmptyObj e.data), kv.2 = JVal.null) :
    mkVariables e = none :=
  mapToVariables_none_of_null _ h

/-- A sibling loop containing an environment whose coercion throws never
completes with a value. -/
theorem createEnvList_no_ok_of_bad (resources : List Resource) (e : Resource)
    (hbad : mkVariables e = none) :
    ∀ (lst : List Resource) (fuel : Nat) (l : List BrunoEnvironment),
      e ∈ lst → createEnvList fuel resources lst ≠ .ok l := by
  intro lst
  induction lst with
  | nil => intro fuel l hmem; cases hmem
  | cons f rest ih =>
    intro fuel l hmem hok
    cases fuel with
    | zero => cases hok
    | succ fuel =>
      rcases List.mem_cons.mp hmem with he | he
      · subst he
        rw [createEnvList, hbad] at hok
        cases hok
      · rw [createEnvList] at hok
        cases hv : mkVariables f with
        | none => rw [hv] at hok; cases hok
        | some vars =>
          rw [hv] at hok
          cases hk : createEnvironments fuel resources (some f._id) with
          | exn => rw [hk] at hok; cases hok
          | fuelOut => rw [hk] at hok; cases hok
          | ok children =>
            rw [hk] at hok
            cases hm : createEnvList fuel resources rest with
            | exn => rw [hm] at hok; cases hok
            | fuelOut => rw [hm] at hok; cases hok
            | ok more => exact ih fuel more he hm

/-- A sibling loop containing an environment whose own subtree never
completes with a value does not complete with a value either. -/
theorem createEnvList_no_ok_of_sub (resources : List Resource) (e : Resource)
    (hsub : ∀ (fuel : Nat) (l : List BrunoEnvironment),
      createEnvironments fuel resources (some e._id) ≠ .ok l) :
    ∀ (lst : List Resource) (fuel : Nat) (l : List BrunoEnvironment),
      e ∈ lst → createEnvList fuel resources lst ≠ .ok l := by
  intro lst
  induction lst with
  | nil => intro fuel l hmem; cases hmem
  | cons f rest ih =>
    intro fuel l hmem hok
    cases fuel with
    | zero => cases hok
    | succ fuel =>
      rcases List.mem_cons.mp hmem with he | he
      · subst he
        rw [createEnvList] at hok
        cases hv : mkVariables e with
        | none => rw [hv] at hok; cases hok
        | some vars =>
          rw [hv] at hok
          cases hk : createEnvironments fuel resources (some e._id) with
          | exn => rw [hk] at hok; cases hok
          | fuelOut => rw [hk] at hok; cases hok
          | ok children => exact hsub fuel children hk
      · rw [createEnvList] at hok
        cases hv : mkVariables f with
        | none => rw [hv] at hok; cases hok
        | some vars =>
          rw [hv] at hok
          cases hk : createEnvironments fuel resources (some f._id) with
          | exn => rw [hk] at hok; cases hok
          | fuelOut => rw [hk] at hok; cases hok
          | ok children =>
            rw [hk] at hok
            cases hm : createEnvList fuel resources rest with
            | exn => rw [hm] at hok; cases hok
            | fuelOut => rw [hm] at hok; cases hok
            | ok more => exact ih fuel more he hm

/-- The environment recursion never completes with a value when a visited
environment's flattened data contains a `null`. -/
theorem createEnvironments_no_ok_of_reach (resources : List Resource)
    (pid : Option String) (e : Resource)
    (hreach : EnvReach resources pid e)
    (hnull : ∃ kv ∈ flattenTop (jsOrEmptyObj e.data), kv.2 = JVal.null) :
    ∀ (fuel : Nat) (l : List BrunoEnvironment),
      createEnvironments fuel resources pid ≠ .ok l := by
  revert hnull
  induction hreach with
  | direct hmem htype hpid =>
    intro hnull fuel l hok
    cases fuel with
    | zero => cases hok
    | succ fuel =>
      rw [createEnvironments] at hok
      refine createEnvList_no_ok_of_bad resources _ (mkVariables_none_of_null _ hnull)
        _ fuel l ?_ hok
      exact List.mem_filter.mpr ⟨hmem, by simp [htype, hpid]⟩
  | step hmem htype hpid _ ih =>
    intro hnull fuel l hok
    cases fuel with
    | zero => cases hok
    | succ fuel =>
      rw [createEnvironments] at hok
      refine createEnvList_no_ok_of_sub resources _ (fun f' l' => ih hnull f' l')
        _ fuel l ?_ hok
      exact List.mem_filter.mpr ⟨hmem, by simp [htype, hpid]⟩

/-- C10 (amended).  If an environment visited by the traversal — directly or
transitively parented, through environment resources, under the workspace —
has a `null` value in its flattened data, then whenever the conversion
completes it rejects with the generic parsing error; no collection is
produced. -/
theorem reachable_env_null_rejects_generic (fuel : Nat) (data : InsomniaExport)
    (ws e : Resource) (r : Except BrunoError BrunoCollection)
    (hws : data.resources.find? (fun r => decide (r._type = "workspace")) = some ws)
    (hreach : EnvReach
      (data.resources.filter (fun r => decide (r._type = "environment")))
      (some ws._id) e)
    (hnull : ∃ kv ∈ flattenTop (jsOrEmptyObj e.data), kv.2 = JVal.null)
    (hdone : parseInsomniaCollection fuel data = some r) :
    r = Except.error { message := "An error occurred while parsing the Insomnia collection" } := by
  simp only [parseInsomniaCollection, hws] at hdone
  split at hdone
  · injection hdone with hdone
    exact hdone.symm
  · cases hdone
  · rename_i envs henv
    exact absurd henv (createEnvironments_no_ok_of_reach _ _ _ hreach hnull fuel envs)

/-- Witness for the amended C10 at a concrete document whose workspace has a
direct child environment with data `{x: null}`. -/
theorem reachable_env_null_rejects_generic_witness :
    parseInsomniaCollection 9 { resources := [wsResource, badEnv] } =
      some (Except.error
        { message := "An error occurred while parsing the Insomnia collection" }) := by
  have hreach : EnvReach
      (List.filter (fun r => decide (r._type = "environment")) [wsResource, badEnv])
      (some wsResource._id) badEnv := by
    apply EnvReach.direct
    · rw [show List.filter (fun r => decide (r._type = "environment"))
        [wsResource, badEnv] = [badEnv] from rfl]
      exact List.mem_cons_self _ _
    · rfl
    · rfl
  have hr := reachable_env_null_rejects_generic 9 { resources := [wsResource, badEnv] }
    wsResource badEnv
    (Except.error { message := "An error occurred while parsing the Insomnia collection" })
    rfl hreach
    ⟨("x", JVal.null), by
      rw [show flattenTop (jsOrEmptyObj badEnv.data) = [("x", JVal.null)] from rfl]
      exact List.mem_cons_self _ _, rfl⟩
    rfl
  exact rfl

/-- C10 (counterexample to the claim as stated).  The orphan environment's
flattened data contains a `null` value, yet the conversion succeeds (with no
environments in the output) instead of rejecting: an environment not
parented under the workspace is never coerced. -/
theorem orphan_env_null_not_rejected :
    flattenTop (jsOrEmptyObj orphanEnv.data) = [("x", JVal.null)] ∧
    parseInsomniaCollection 9 orphanExport =
      some (Except.ok
        { name := "My Workspace", uid := uuid, version := "1",
          items := [], environments := [] }) :=
  ⟨rfl, rfl⟩

/-! ## Rewriter span lemmas (toward C3 and C4) -/

/-- Cons-folding over an empty decomposition extends the trailing text. -/
theorem consGapAll_nil_pairs :
    ∀ (xs t : List Char), consGapAll xs ([], t) = ([], xs ++ t) := by
  intro xs t
  induction xs with
  | nil => rfl
  | cons c xs' ih => simp only [consGapAll, List.foldr_cons] at *; rw [ih]; rfl

/-- Cons-folding over a nonempty decomposition extends the first gap. -/
theorem consGapAll_cons_pairs :
    ∀ (xs g m : List Char) ps (t : List Char),
      consGapAll xs ((g, m) :: ps, t) = ((xs ++ g, m) :: ps, t) := by
  intro xs g m ps t
  induction xs with
  | nil => rfl
  | cons c xs' ih => simp only [consGapAll, List.foldr_cons] at *; rw [ih]; rfl

/-- The lazy close search finds exactly the clean interior. -/
theorem findClose_at_close :
    ∀ (core b : List Char), (∀ c ∈ core, c ≠ '}' ∧ isLineTerm c = false) →
      findClose (core ++ '}' :: '}' :: b) = some (core, b) := by
  intro core
  induction core with
  | nil => intro b _; simp [findClose]
  | cons c core' ih =>
    intro b h
    have hc := h c (List.mem_cons_self _ _)
    have hrest : ∀ x ∈ core', x ≠ '}' ∧ isLineTerm x = false :=
      fun x hx => h x (List.mem_cons_of_mem _ hx)
    cases core' with
    | nil =>
      simp only [List.cons_append, List.nil_append, findClose]
      rw [if_neg (fun hcd => hc.1 hcd.1), if_neg (by simp [hc.2])]
      rfl
    | cons c2 core'' =>
      have hstep := ih b hrest
      simp only [List.cons_append] at hstep ⊢
      rw [findClose]
      rw [if_neg (fun hcd => hc.1 hcd.1), if_neg (by simp [hc.2])]
      rw [hstep]
      rfl

/-- A brace-free input yields no matches. -/
theorem scanSpansF_clean :
    ∀ (xs : List Char) (n : Nat), (∀ c ∈ xs, c ≠ '{') →
      scanSpansF n xs = ([], xs) := by
  intro xs
  induction xs with
  | nil => intro n _; cases n <;> rfl
  | cons c xs' ih =>
    intro n h
    cases n with
    | zero => rfl
    | succ m =>
      rw [scanSpansF]
      rw [if_neg (fun hcd => h c (List.mem_cons_self _ _) hcd.1)]
      rw [ih m (fun x hx => h x (List.mem_cons_of_mem _ hx))]
      rfl

/-- Scanning across a brace-free prefix accumulates it as gap text. -/
theorem scanSpansF_gap :
    ∀ (xs : List Char) (n : Nat) (s : List Char), (∀ c ∈ xs, c ≠ '{') →
      scanSpansF n (xs ++ s) = consGapAll xs (scanSpansF (n - xs.length) s) := by
  intro xs
  induction xs with
  | nil => intro n s _; simp [consGapAll]
  | cons c xs' ih =>
    intro n s h
    cases n with
    | zero =>
      have h0 : 0 - (c :: xs').length = 0 := by omega
      rw [h0]
      show ([], c :: xs' ++ s) = _
      rw [show scanSpansF 0 s = ([], s) from rfl, consGapAll_nil_pairs]
    | succ m =>
      rw [List.cons_append, scanSpansF]
      rw [if_neg (fun hcd => h c (List.mem_cons_self _ _) hcd.1)]
      rw [ih m s (fun x hx => h x (List.mem_cons_of_mem _ hx))]
      have hm : m + 1 - (c :: xs').length = m - xs'.length := by
        simp only [List.length_cons]
        omega
      rw [hm]
      rfl

/-- On a single-span input the global scan finds exactly that span. -/
theorem scanSpans_single_span (a core b : List Char)
    (ha : ∀ c ∈ a, c ≠ '{') (hb : ∀ c ∈ b, c ≠ '{')
    (hcore : ∀ c ∈ core, c ≠ '}' ∧ isLineTerm c = false) :
    scanSpans (a ++ '{' :: '{' :: core ++ '}' :: '}' :: b) =
      ([(a, '{' :: '{' :: core ++ ['}', '}'])], b) := by
  have hspan : ∀ m : Nat,
      scanSpansF (m + 1) ('{' :: '{' :: (core ++ '}' :: '}' :: b)) =
        ([([], '{' :: '{' :: core ++ ['}', '}'])], b) := by
    intro m
    rw [scanSpansF]
    rw [if_pos ⟨rfl, rfl⟩]
    simp only [List.tail_cons]
    rw [findClose_at_close core b hcore]
    dsimp only
    rw [scanSpansF_clean b _ hb]
  simp only [List.append_assoc, List.cons_append]
  rw [scanSpans, scanSpansF_gap a _ ('{' :: '{' :: (core ++ '}' :: '}' :: b)) ha]
  have hlen : (a ++ '{' :: '{' :: (core ++ '}' :: '}' :: b)).length + 1 - a.length =
      (core.length + b.length + 4) + 1 := by
    simp only [List.length_append, List.length_cons]
    omega
  rw [hlen, hspan, consGapAll_cons_pairs]
  simp

/-- A list is a prefix (in the Boolean sense used by the scanner) of itself
followed by anything. -/
theorem isPrefixOf_self_append : ∀ l t : List Char, l.isPrefixOf (l ++ t) = true
  | [], _ => by simp [List.isPrefixOf]
  | c :: l', t => by
    simp only [List.cons_append, List.isPrefixOf]
    rw [show l'.append t = l' ++ t from rfl]
    rw [isPrefixOf_self_append l' t]
    simp

/-- A replacement string without `$` is substituted literally. -/
theorem getSubstitution_no_dollar (m bf af : List Char) :
    ∀ repl : List Char, (∀ c ∈ repl, c ≠ '$') →
      getSubstitution m bf af repl = repl := by
  intro repl
  induction repl with
  | nil => intro _; rfl
  | cons c rest ih =>
    intro h
    rw [getSubstitution.eq_def]
    dsimp only
    rw [if_neg (h c (List.mem_cons_self c rest))]
    rw [ih (fun d hd => h d (List.mem_cons_of_mem c hd))]

/-- Scanning a text with no `\x7b` for a pattern that starts with `\x7b`
finds no occurrence, at every fuel. -/
theorem replaceAllFromF_no_match (pt repl : List Char) :
    ∀ (fuel : Nat) (before s : List Char), (∀ c ∈ s, c ≠ '{') →
      replaceAllFromF ('{' :: pt) repl fuel before s = s := by
  intro fuel
  induction fuel with
  | zero => intro _ _ _; rfl
  | succ f ih =>
    intro before s h
    match s with
    | [] => rfl
    | c :: rest =>
      have hnp : ¬(('{' :: pt) ≠ [] ∧ ('{' :: pt).isPrefixOf (c :: rest) = true) := by
        intro hcon
        have hpre := hcon.2
        rw [List.isPrefixOf, Bool.and_eq_true] at hpre
        exact h c (List.mem_cons_self c rest) (eq_of_beq hpre.1).symm
      rw [replaceAllFromF, if_neg hnp]
      rw [ih (before ++ [c]) rest (fun d hd => h d (List.mem_cons_of_mem c hd))]

/-- The scanner passes over a `\x7b`-free prefix of the receiver unchanged
(when the pattern starts with `\x7b`), spending one unit of fuel per
character. -/
theorem replaceAllFromF_skip (pt repl : List Char) :
    ∀ (a : List Char), (∀ c ∈ a, c ≠ '{') →
      ∀ (k : Nat) (before s : List Char),
        replaceAllFromF ('{' :: pt) repl (a.length + k) before (a ++ s) =
          a ++ replaceAllFromF ('{' :: pt) repl k (before ++ a) s := by
  intro a
  induction a with
  | nil =>
    intro _ k before s
    simp
  | cons c a' ih =>
    intro h k before s
    have hfuel : (c :: a').length + k = (a'.length + k) + 1 := by
      simp only [List.length_cons]; omega
    have hnp : ¬(('{' :: pt) ≠ [] ∧ ('{' :: pt).isPrefixOf (c :: (a' ++ s)) = true) := by
      intro hcon
      have hpre := hcon.2
      rw [List.isPrefixOf, Bool.and_eq_true] at hpre
      exact h c (List.mem_cons_self c a') (eq_of_beq hpre.1).symm
    rw [hfuel, List.cons_append, replaceAllFromF, if_neg hnp]
    rw [ih (fun d hd => h d (List.mem_cons_of_mem c hd)) k (before ++ [c]) s]
    rw [List.cons_append]
    rw [List.append_assoc before [c] a']
    rfl

/-- At an occurrence of the pattern the scanner substitutes the replacement
and continues after the match; with a `\x7b`-free remainder the result is
exactly `repl ++ b`. -/
theorem replaceAllFromF_at_match (vt repl b : List Char) (k : Nat)
    (before : List Char) (hb : ∀ c ∈ b, c ≠ '{')
    (hr : ∀ c ∈ repl, c ≠ '$') :
    replaceAllFromF ('{' :: vt) repl (k + 1) before (('{' :: vt) ++ b) =
      repl ++ b := by
  rw [List.cons_append, replaceAllFromF]
  rw [if_pos ⟨List.cons_ne_nil _ _, by
    rw [← List.cons_append]
    exact isPrefixOf_self_append ('{' :: vt) b⟩]
  rw [← List.cons_append]
  rw [List.drop_left ('{' :: vt) b]
  rw [getSubstitution_no_dollar _ _ _ repl hr]
  rw [replaceAllFromF_no_match vt repl k (before ++ ('{' :: vt)) b hb]

/-- `replaceAll` on a receiver holding exactly one occurrence of the span:
the prefix and suffix are kept and the single occurrence becomes `repl`. -/
theorem jsReplaceAll_single (a vt b repl : List Char)
    (ha : ∀ c ∈ a, c ≠ '{') (hb : ∀ c ∈ b, c ≠ '{')
    (hr : ∀ c ∈ repl, c ≠ '$') :
    jsReplaceAll (a ++ (('{' :: vt) ++ b)) ('{' :: vt) repl =
      a ++ (repl ++ b) := by
  rw [jsReplaceAll]
  rw [if_neg (List.cons_ne_nil '{' vt)]
  have hfuel : (a ++ (('{' :: vt) ++ b)).length + 1 =
      a.length + ((vt.length + b.length + 1) + 1) := by
    simp only [List.length_append, List.length_cons]; omega
  rw [hfuel]
  rw [replaceAllFromF_skip vt repl a ha ((vt.length + b.length + 1) + 1) [] (('{' :: vt) ++ b)]
  rw [replaceAllFromF_at_match vt repl b (vt.length + b.length + 1) ([] ++ a) hb hr]

/-- The strip pass only deletes characters. -/
theorem mem_removeStep : ∀ l : List Char, ∀ c ∈ removeStep l, c ∈ l := by
  intro l
  induction l using removeStep.induct with
  | case1 => intro c hc; exact absurd hc (List.not_mem_nil c)
  | case2 c hw =>
    intro d hd
    rw [removeStep, if_pos hw] at hd
    exact absurd hd (List.not_mem_nil d)
  | case3 c hw =>
    intro d hd
    rw [removeStep, if_neg hw] at hd
    exact hd
  | case4 c d rest hcd ih =>
    intro e he
    rw [removeStep, if_pos hcd] at he
    exact List.mem_cons_of_mem c (List.mem_cons_of_mem d (ih e he))
  | case5 c d rest hcd hw ih =>
    intro e he
    rw [removeStep, if_neg hcd, if_pos hw] at he
    exact List.mem_cons_of_mem c (ih e he)
  | case6 c d rest hcd hw ih =>
    intro e he
    rw [removeStep, if_neg hcd, if_neg hw] at he
    rcases List.mem_cons.mp he with h1 | h2
    · exact h1 ▸ List.mem_cons_self c (d :: rest)
    · exact List.mem_cons_of_mem c (ih e h2)

/-- The strip pass removes every whitespace-or-] character. -/
theorem removeStep_no_wsOr : ∀ l : List Char, ∀ c ∈ removeStep l,
    wsOrRBracket c = false := by
  intro l
  induction l using removeStep.induct with
  | case1 => intro c hc; exact absurd hc (List.not_mem_nil c)
  | case2 c hw =>
    intro d hd
    rw [removeStep, if_pos hw] at hd
    exact absurd hd (List.not_mem_nil d)
  | case3 c hw =>
    intro d hd
    rw [removeStep, if_neg hw] at hd
    rw [List.mem_singleton.mp hd]
    exact Bool.not_eq_true _ |>.mp hw
  | case4 c d rest hcd ih =>
    intro e he
    rw [removeStep, if_pos hcd] at he
    exact ih e he
  | case5 c d rest hcd hw ih =>
    intro e he
    rw [removeStep, if_neg hcd, if_pos hw] at he
    exact ih e he
  | case6 c d rest hcd hw ih =>
    intro e he
    rw [removeStep, if_neg hcd, if_neg hw] at he
    rcases List.mem_cons.mp he with h1 | h2
    · rw [h1]; exact Bool.not_eq_true _ |>.mp hw
    · exact ih e h2

/-- The strip pass distributes over an append whose right part starts with a
character that is neither stripped nor the `.` of a `_.` pair. -/
theorem removeStep_append (h : Char) (t : List Char)
    (hwh : wsOrRBracket h = false) (hdh : h ≠ '.') :
    ∀ l : List Char,
      removeStep (l ++ (h :: t)) = removeStep l ++ removeStep (h :: t) := by
  intro l
  induction l using removeStep.induct with
  | case1 => simp [removeStep]
  | case2 c hw =>
    rw [List.singleton_append]
    rw [show removeStep (c :: h :: t) = removeStep (h :: t) from by
      rw [removeStep]
      rw [if_neg (fun hc : c = '_' ∧ h = '.' => hdh hc.2)]
      rw [if_pos hw]]
    rw [show removeStep [c] = [] from by rw [removeStep, if_pos hw]]
    rw [List.nil_append]
  | case3 c hw =>
    rw [List.singleton_append]
    rw [show removeStep (c :: h :: t) = c :: removeStep (h :: t) from by
      rw [removeStep]
      rw [if_neg (fun hc : c = '_' ∧ h = '.' => hdh hc.2)]
      rw [if_neg hw]]
    rw [show removeStep [c] = [c] from by rw [removeStep, if_neg hw]]
    rw [List.singleton_append]
  | case4 c d rest hcd ih =>
    rw [List.cons_append, List.cons_append]
    rw [show removeStep (c :: d :: (rest ++ (h :: t))) =
        removeStep (rest ++ (h :: t)) from by
      rw [removeStep, if_pos hcd]]
    rw [show removeStep (c :: d :: rest) = removeStep rest from by
      rw [removeStep, if_pos hcd]]
    exact ih
  | case5 c d rest hcd hw ih =>
    rw [List.cons_append, List.cons_append]
    rw [show removeStep (c :: d :: (rest ++ (h :: t))) =
        removeStep (d :: (rest ++ (h :: t))) from by
      rw [removeStep, if_neg hcd, if_pos hw]]
    rw [show removeStep (c :: d :: rest) = removeStep (d :: rest) from by
      rw [removeStep, if_neg hcd, if_pos hw]]
    rw [← List.cons_append d rest (h :: t)]
    exact ih
  | case6 c d rest hcd hw ih =>
    rw [List.cons_append, List.cons_append]
    rw [show removeStep (c :: d :: (rest ++ (h :: t))) =
        c :: removeStep (d :: (rest ++ (h :: t))) from by
      rw [removeStep, if_neg hcd, if_neg hw]]
    rw [show removeStep (c :: d :: rest) = c :: removeStep (d :: rest) from by
      rw [removeStep, if_neg hcd, if_neg hw]]
    rw [← List.cons_append d rest (h :: t)]
    rw [ih, List.cons_append]

/-- A leading `\x7b` passes through the strip pass. -/
theorem removeStep_cons_lbrace : ∀ l : List Char,
    removeStep ('{' :: l) = '{' :: removeStep l
  | [] => by decide
  | d :: rest => by
    rw [removeStep]
    rw [if_neg (fun hc => absurd hc.1 (by decide))]
    rw [if_neg (by decide)]

/-- Inputs without stripped characters and without `.` pass through the
strip pass unchanged. -/
theorem removeStep_id : ∀ l : List Char,
    (∀ c ∈ l, wsOrRBracket c = false ∧ c ≠ '.') → removeStep l = l := by
  intro l
  induction l using removeStep.induct with
  | case1 => intro _; rfl
  | case2 c hw =>
    intro h
    exact absurd hw (by simp [(h c (List.mem_singleton_self c)).1])
  | case3 c hw =>
    intro _
    rw [removeStep, if_neg hw]
  | case4 c d rest hcd ih =>
    intro h
    exact absurd hcd.2 (h d (List.mem_cons_of_mem c (List.mem_cons_self d rest))).2
  | case5 c d rest hcd hw ih =>
    intro h
    exact absurd hw (by simp [(h c (List.mem_cons_self c (d :: rest))).1])
  | case6 c d rest hcd hw ih =>
    intro h
    rw [removeStep, if_neg hcd, if_neg hw]
    rw [ih (fun e he => h e (List.mem_cons_of_mem c he))]

/-- Characters of the underscore pass: either the substituted `_` or an
input character that is neither `.` nor `[`. -/
theorem mem_underscoreStep (l : List Char) :
    ∀ c ∈ underscoreStep l, c = '_' ∨ (c ∈ l ∧ c ≠ '.' ∧ c ≠ '[') := by
  intro c hc
  rw [underscoreStep] at hc
  rcases List.mem_map.mp hc with ⟨d, hd, hfd⟩
  by_cases hcase : d = '.' ∨ d = '['
  · rw [if_pos hcase] at hfd; exact Or.inl hfd.symm
  · rw [if_neg hcase] at hfd
    push_neg at hcase
    exact Or.inr ⟨hfd ▸ hd, hfd ▸ hcase.1, hfd ▸ hcase.2⟩

/-- The underscore pass distributes over append. -/
theorem underscoreStep_append (l m : List Char) :
    underscoreStep (l ++ m) = underscoreStep l ++ underscoreStep m := by
  simp [underscoreStep]

/-- Inputs without `.` and `[` pass through the underscore pass unchanged. -/
theorem underscoreStep_id : ∀ l : List Char,
    (∀ c ∈ l, c ≠ '.' ∧ c ≠ '[') → underscoreStep l = l := by
  intro l
  induction l with
  | nil => intro _; rfl
  | cons c rest ih =>
    intro h
    rw [underscoreStep, List.map_cons]
    rw [if_neg (by
      intro hc
      rcases hc with h1 | h2
      · exact (h c (List.mem_cons_self c rest)).1 h1
      · exact (h c (List.mem_cons_self c rest)).2 h2)]
    have := ih (fun e he => h e (List.mem_cons_of_mem c he))
    rw [underscoreStep] at this
    rw [this]

/-- A leading `\x7b` passes through the underscore pass. -/
theorem underscoreStep_cons_lbrace (l : List Char) :
    underscoreStep ('{' :: l) = '{' :: underscoreStep l := by
  simp [underscoreStep]

/-- The per-span rewrite keeps the surrounding brace pairs and acts on the
interior. -/
theorem transformVariable_braced (core : List Char) :
    transformVariable ('{' :: ('{' :: (core ++ ['}', '}']))) =
      '{' :: ('{' :: (transformVariable core ++ ['}', '}'])) := by
  rw [transformVariable, removeStep_cons_lbrace, removeStep_cons_lbrace]
  rw [removeStep_append '}' ['}'] (by decide) (by decide) core]
  rw [underscoreStep_cons_lbrace, underscoreStep_cons_lbrace]
  rw [underscoreStep_append]
  rw [show removeStep ['}', '}'] = ['}', '}'] from by decide]
  rw [show underscoreStep ['}', '}'] = ['}', '}'] from by decide]
  rfl

/-- The rewritten span text contains no stripped character, no `.` and no
`[`. -/
theorem transformVariable_clean (l : List Char) :
    ∀ c ∈ transformVariable l,
      wsOrRBracket c = false ∧ c ≠ '.' ∧ c ≠ '[' := by
  intro c hc
  rw [transformVariable] at hc
  rcases mem_underscoreStep (removeStep l) c hc with h1 | ⟨h2, h3, h4⟩
  · subst h1; exact ⟨by decide, by decide, by decide⟩
  · exact ⟨removeStep_no_wsOr l c h2, h3, h4⟩

/-- Characters of the rewritten span text: the substituted `_` or an input
character. -/
theorem mem_transformVariable (l : List Char) :
    ∀ c ∈ transformVariable l, c = '_' ∨ c ∈ l := by
  intro c hc
  rw [transformVariable] at hc
  rcases mem_underscoreStep (removeStep l) c hc with h1 | ⟨h2, _, _⟩
  · exact Or.inl h1
  · exact Or.inr (mem_removeStep l c h2)

/-- The per-span rewrite is idempotent (on every input). -/
theorem transformVariable_idem (l : List Char) :
    transformVariable (transformVariable l) = transformVariable l := by
  have hclean := transformVariable_clean l
  rw [transformVariable, removeStep_id (transformVariable l)
    (fun c hc => ⟨(hclean c hc).1, (hclean c hc).2.1⟩)]
  rw [underscoreStep_id (transformVariable l)
    (fun c hc => (hclean c hc).2)]

/-- The rewritten span text of a full match contains no `$` when the span
interior does, so the replacement is substituted literally. -/
theorem span_repl_no_dollar (core : List Char)
    (hcore : ∀ c ∈ core, c ≠ '$') :
    ∀ c ∈ transformVariable ('{' :: ('{' :: (core ++ ['}', '}']))), c ≠ '$' := by
  intro c hc
  rcases mem_transformVariable _ c hc with h1 | h2
  · rw [h1]; decide
  · rcases List.mem_cons.mp h2 with h3 | h4
    · rw [h3]; decide
    · rcases List.mem_cons.mp h4 with h5 | h6
      · rw [h5]; decide
      · rcases List.mem_append.mp h6 with h7 | h8
        · exact hcore c h7
        · simp at h8
          rw [h8]; decide

/-- `normalizeVariables` on a value holding exactly one `\x7b\x7b ... \x7d\x7d`
span (with brace-free surroundings and a span interior free of `\x7d`,
line terminators and `$`): the span is rewritten in place and the
surroundings are untouched. -/
theorem normalizeList_single_span (a core b : List Char)
    (ha : ∀ c ∈ a, c ≠ '{') (hb : ∀ c ∈ b, c ≠ '{')
    (hcore : ∀ c ∈ core, c ≠ '}' ∧ isLineTerm c = false ∧ c ≠ '$') :
    normalizeList (a ++ '{' :: '{' :: core ++ '}' :: '}' :: b) =
      a ++ ('{' :: ('{' :: (transformVariable core ++ ('}' :: '}' :: b)))) := by
  rw [normalizeList, matchVariables, scanSpans_single_span a core b ha hb
    (fun c hc => ⟨(hcore c hc).1, (hcore c hc).2.1⟩)]
  simp only [List.map_cons, List.map_nil, List.foldl_cons, List.foldl_nil]
  have hj := jsReplaceAll_single a ('{' :: (core ++ ['}', '}'])) b
    (transformVariable ('{' :: ('{' :: (core ++ ['}', '}'])))) ha hb
    (span_repl_no_dollar core (fun c hc => (hcore c hc).2.2))
  simp only [List.cons_append, List.append_assoc, List.nil_append] at hj ⊢
  rw [hj, transformVariable_braced core]
  simp [List.append_assoc, List.cons_append]

/-- The spec-side rewriter on a single-span value. -/
theorem specNormalizeList_single_span (a core b : List Char)
    (ha : ∀ c ∈ a, c ≠ '{') (hb : ∀ c ∈ b, c ≠ '{')
    (hcore : ∀ c ∈ core, c ≠ '}' ∧ isLineTerm c = false) :
    specNormalizeList (a ++ '{' :: '{' :: core ++ '}' :: '}' :: b) =
      a ++ ('{' :: ('{' :: (transformVariable core ++ ('}' :: '}' :: b)))) := by
  simp only [specNormalizeList]
  rw [scanSpans_single_span a core b ha hb hcore]
  simp only [List.map_cons, List.map_nil, List.flatten_cons, List.flatten_nil,
    List.append_nil]
  have hbr := transformVariable_braced core
  simp only [List.cons_append, List.append_assoc, List.nil_append] at hbr ⊢
  rw [hbr]
  simp [List.append_assoc]

/-- C3 (corrected): on a value holding exactly one `\x7b\x7b ... \x7d\x7d` span —
brace-free surroundings, span interior free of `\x7d`, line terminators and
`$` — the rewriter transforms the span in place (strip whitespace-or-`\x5d`
runs and `_.` pairs, then underscore the remaining `.` and `[`) and leaves
the surrounding text untouched, agreeing with the spec's span-local
description; the unrestricted per-span claim fails (see the counterexample
`cross_span_contamination`). -/
theorem variable_rewriter_single_span (a core b : List Char)
    (ha : ∀ c ∈ a, c ≠ '{') (hb : ∀ c ∈ b, c ≠ '{')
    (hcore : ∀ c ∈ core, c ≠ '}' ∧ isLineTerm c = false ∧ c ≠ '$') :
    normalizeVariables (String.mk (a ++ '{' :: '{' :: core ++ '}' :: '}' :: b)) =
      String.mk (a ++ ('{' :: ('{' :: (transformVariable core ++ ('}' :: '}' :: b))))) ∧
    specNormalizeVariables (String.mk (a ++ '{' :: '{' :: core ++ '}' :: '}' :: b)) =
      normalizeVariables (String.mk (a ++ '{' :: '{' :: core ++ '}' :: '}' :: b)) := by
  constructor
  · exact congrArg String.mk (normalizeList_single_span a core b ha hb hcore)
  · exact (congrArg String.mk (specNormalizeList_single_span a core b ha hb
      (fun c hc => ⟨(hcore c hc).1, (hcore c hc).2.1⟩))).trans
      (congrArg String.mk (normalizeList_single_span a core b ha hb hcore)).symm

/-- Witness for `variable_rewriter_single_span` at
`"url: \x7b\x7b user.name \x7d\x7d/login"`. -/
theorem variable_rewriter_single_span_witness :
    (∀ c ∈ ("url: ").data, c ≠ '{') ∧ (∀ c ∈ ("/login").data, c ≠ '{') ∧
    (∀ c ∈ (" user.name ").data, c ≠ '}' ∧ isLineTerm c = false ∧ c ≠ '$') ∧
    (normalizeVariables (String.mk (("url: ").data ++
          '{' :: '{' :: (" user.name ").data ++ '}' :: '}' :: ("/login").data)) =
        String.mk (("url: ").data ++ ('{' :: ('{' ::
          (transformVariable ((" user.name ").data) ++
            ('}' :: '}' :: ("/login").data))))) ∧
      specNormalizeVariables (String.mk (("url: ").data ++
          '{' :: '{' :: (" user.name ").data ++ '}' :: '}' :: ("/login").data)) =
        normalizeVariables (String.mk (("url: ").data ++
          '{' :: '{' :: (" user.name ").data ++ '}' :: '}' :: ("/login").data))) :=
  ⟨by decide, by decide, by decide,
    variable_rewriter_single_span ("url: ").data (" user.name ").data
      ("/login").data (by decide) (by decide) (by decide)⟩

/-- Counterexample to the unrestricted C3 (and to the spec's "each span
independently, outside text untouched"): with two spans, the global
`replaceAll` of the first span's text also rewrites its occurrence inside
the second span, so the second replacement misses and a `.` survives
inside a span. -/
theorem cross_span_contamination :
    normalizeVariables "\x7b\x7bb.c\x7d\x7dx\x7b\x7ba.\x7b\x7bb.c\x7d\x7d" =
        "\x7b\x7bb_c\x7d\x7dx\x7b\x7ba.\x7b\x7bb_c\x7d\x7d" ∧
    specNormalizeVariables "\x7b\x7bb.c\x7d\x7dx\x7b\x7ba.\x7b\x7bb.c\x7d\x7d" =
        "\x7b\x7bb_c\x7d\x7dx\x7b\x7ba_\x7b\x7bb_c\x7d\x7d" ∧
    normalizeVariables "\x7b\x7bb.c\x7d\x7dx\x7b\x7ba.\x7b\x7bb.c\x7d\x7d" ≠
        specNormalizeVariables "\x7b\x7bb.c\x7d\x7dx\x7b\x7ba.\x7b\x7bb.c\x7d\x7d" :=
  ⟨by decide, by decide, by decide⟩

/-- C4 (corrected): the rewriter maps absent (`null`/`undefined`) and empty
input to the empty string, rewrites `"\x7b\x7b foo.bar_baz[0] \x7d\x7d"` to the
underscore-joined `"\x7b\x7bfoo_bar_baz_0\x7d\x7d"`, produces span interiors with
no whitespace, no `[`/`\x5d` bracket and no `.`, and is idempotent on
single-span values; unrestricted idempotence on its own outputs fails (see
`rewriter_not_idempotent_on_output`). -/
theorem rewriter_idempotent_single_span (a core b : List Char)
    (ha : ∀ c ∈ a, c ≠ '{') (hb : ∀ c ∈ b, c ≠ '{')
    (hcore : ∀ c ∈ core, c ≠ '}' ∧ isLineTerm c = false ∧ c ≠ '$') :
    normalizeVariablesOpt none = "" ∧
    normalizeVariables "" = "" ∧
    normalizeVariables "\x7b\x7b foo.bar_baz[0] \x7d\x7d" = "\x7b\x7bfoo_bar_baz_0\x7d\x7d" ∧
    (∀ c ∈ transformVariable core, wsOrRBracket c = false ∧ c ≠ '.' ∧ c ≠ '[') ∧
    normalizeVariables (normalizeVariables
        (String.mk (a ++ '{' :: '{' :: core ++ '}' :: '}' :: b))) =
      normalizeVariables (String.mk (a ++ '{' :: '{' :: core ++ '}' :: '}' :: b)) := by
  refine ⟨rfl, rfl, by decide, transformVariable_clean core, ?_⟩
  have hcore2 : ∀ c ∈ transformVariable core,
      c ≠ '}' ∧ isLineTerm c = false ∧ c ≠ '$' := by
    intro c hc
    rcases mem_transformVariable core c hc with h1 | h2
    · rw [h1]; exact ⟨by decide, by decide, by decide⟩
    · exact hcore c h2
  have hinner := normalizeList_single_span a core b ha hb hcore
  have houter := normalizeList_single_span a (transformVariable core) b ha hb hcore2
  rw [transformVariable_idem core] at houter
  show String.mk (normalizeList (normalizeList
      (a ++ '{' :: '{' :: core ++ '}' :: '}' :: b))) =
    String.mk (normalizeList (a ++ '{' :: '{' :: core ++ '}' :: '}' :: b))
  rw [hinner]
  simp only [List.append_assoc, List.cons_append] at houter ⊢
  rw [houter]

/-- Witness for `rewriter_idempotent_single_span` at
`"x: \x7b\x7b p.q \x7d\x7d/z"`. -/
theorem rewriter_idempotent_single_span_witness :
    (∀ c ∈ ("x: ").data, c ≠ '{') ∧ (∀ c ∈ ("/z").data, c ≠ '{') ∧
    (∀ c ∈ (" p.q ").data, c ≠ '}' ∧ isLineTerm c = false ∧ c ≠ '$') ∧
    (normalizeVariablesOpt none = "" ∧
      normalizeVariables "" = "" ∧
      normalizeVariables "\x7b\x7b foo.bar_baz[0] \x7d\x7d" = "\x7b\x7bfoo_bar_baz_0\x7d\x7d" ∧
      (∀ c ∈ transformVariable ((" p.q ").data),
        wsOrRBracket c = false ∧ c ≠ '.' ∧ c ≠ '[') ∧
      normalizeVariables (normalizeVariables
          (String.mk (("x: ").data ++
            '{' :: '{' :: (" p.q ").data ++ '}' :: '}' :: ("/z").data))) =
        normalizeVariables (String.mk (("x: ").data ++
          '{' :: '{' :: (" p.q ").data ++ '}' :: '}' :: ("/z").data))) :=
  ⟨by decide, by decide, by decide,
    rewriter_idempotent_single_span ("x: ").data (" p.q ").data ("/z").data
      (by decide) (by decide) (by decide)⟩

/-- Counterexample to the unrestricted C4 idempotence-on-outputs: the
rewriter's output on a two-span value is changed by a second application
(the first pass leaves a contaminated span whose text the second pass then
rewrites). -/
theorem rewriter_not_idempotent_on_output :
    normalizeVariables "\x7b\x7bq.r\x7d\x7dy\x7b\x7bp.\x7b\x7bq.r\x7d\x7d" =
        "\x7b\x7bq_r\x7d\x7dy\x7b\x7bp.\x7b\x7bq_r\x7d\x7d" ∧
    normalizeVariables (normalizeVariables "\x7b\x7bq.r\x7d\x7dy\x7b\x7bp.\x7b\x7bq.r\x7d\x7d") =
        "\x7b\x7bq_r\x7d\x7dy\x7b\x7bp_\x7b\x7bq_r\x7d\x7d" ∧
    normalizeVariables (normalizeVariables "\x7b\x7bq.r\x7d\x7dy\x7b\x7bp.\x7b\x7bq.r\x7d\x7d") ≠
        normalizeVariables "\x7b\x7bq.r\x7d\x7dy\x7b\x7bp.\x7b\x7bq.r\x7d\x7d" :=
  ⟨by decide, by decide, by decide⟩
